import Mathlib

/-!
The i6502 emulator: instruction semantics of the 6502 core and the 6551 ACIA registers.

A shallow embedding of `cpu_instructions.go`.  Bytes (`uint8`, `byte`) are natural
numbers kept below 256 by an explicit `% 256` wherever the Go code can wrap; 16-bit
words are kept below 65536 the same way.  A handler `func (c *Cpu) H(in Instruction)`
becomes a function `H : Resolver → Cpu → Instruction → Cpu` returning the processor
state after the handler has run.
-/

namespace I6502

/-! ## Data model -/

/-- Modelled from the spec: the addressing-mode tag of a decoded instruction.  Its
declaration is not part of `cpu_instructions.go`; the handlers only ever compare the tag
with `accumulator`.  The constructors are the modes section 4.1 of the spec lists. -/
inductive AddressingId where
  | immediate
  | zeroPage
  | absolute
  | indexed
  | indirect
  | indirectIndexed
  | accumulator
  | implied
  deriving DecidableEq, Repr

/-- Modelled from the spec: the instruction descriptor handed to a handler, "addressing-mode
tag + any inline operand bytes already fetched".  The type is declared outside
`cpu_instructions.go`. -/
structure Instruction where
  addressingId : AddressingId
  operandBytes : List Nat

/-- Modelled from the spec: the bus, "routes a 16-bit address to exactly one handler".  It
is declared outside `cpu_instructions.go`; here it is a byte store indexed by address. -/
structure Bus where
  cells : Nat → Nat

/-- Modelled from the spec: a bus read returns the byte stored at `address`. -/
def Bus.Read (b : Bus) (address : Nat) : Nat :=
  b.cells address

/-- Modelled from the spec: a bus write replaces the byte stored at `address` and nothing
else. -/
def Bus.Write (b : Bus) (address value : Nat) : Bus :=
  { cells := fun a => if a = address then value else b.cells a }

/-- Modelled from the spec: the processor state of section 3, registers `A`, `X`, `Y`
(8 bit), `PC` (16 bit), `SP` (8 bit), the seven status flags, and the bus the core holds a
reference to.  The `Cpu` type is declared outside `cpu_instructions.go`. -/
structure Cpu where
  A : Nat
  X : Nat
  Y : Nat
  PC : Nat
  SP : Nat
  C : Bool
  Z : Bool
  I : Bool
  D : Bool
  B : Bool
  V : Bool
  N : Bool
  bus : Bus

/-- Modelled from the spec: the addressing resolver of section 4.1, an external
collaborator of which the core only knows the contract: two total functions of the
instruction descriptor and the current processor state. -/
structure Resolver where
  resolveOperand : Cpu → Instruction → Nat
  memoryAddress : Cpu → Instruction → Nat

/-! ## Machine arithmetic -/

/-- Subtraction on `uint8`: the difference modulo 256. -/
def sub8 (x y : Nat) : Nat :=
  (x % 256 + 256 - y % 256) % 256

/-- Subtraction on `uint16`: the difference modulo 65536. -/
def sub16 (x y : Nat) : Nat :=
  (x % 65536 + 65536 - y % 65536) % 65536

/-- Go's unary `^` on a `uint8`: the bitwise complement. -/
def not8 (x : Nat) : Nat :=
  x ^^^ 0xFF

/-! ## Flag and register helpers (declared outside `cpu_instructions.go`) -/

/-- Modelled from the spec: `setCarry` writes the carry flag and nothing else. -/
def Cpu.setCarry (c : Cpu) (v : Bool) : Cpu := { c with C := v }

/-- Modelled from the spec: `setZero` writes the zero flag and nothing else. -/
def Cpu.setZero (c : Cpu) (v : Bool) : Cpu := { c with Z := v }

/-- Modelled from the spec: `setNegative` writes the negative flag and nothing else. -/
def Cpu.setNegative (c : Cpu) (v : Bool) : Cpu := { c with N := v }

/-- Modelled from the spec: `setOverflow` writes the overflow flag and nothing else. -/
def Cpu.setOverflow (c : Cpu) (v : Bool) : Cpu := { c with V := v }

/-- Modelled from the spec: `getDecimal` reads the decimal flag. -/
def Cpu.getDecimal (c : Cpu) : Bool := c.D

/-- Modelled from the spec: `getCarryInt` is `carryIn = C ? 1 : 0`. -/
def Cpu.getCarryInt (c : Cpu) : Nat := if c.C then 1 else 0

/-- Modelled from the spec: `setArithmeticFlags` "recomputes Z/N" from a value, Z when the
value is zero and N when its bit 7 is set. -/
def Cpu.setArithmeticFlags (c : Cpu) (value : Nat) : Cpu :=
  (c.setZero (value == 0)).setNegative ((value &&& 0x80) != 0)

/-- Modelled from the spec: `setA` loads the accumulator and recomputes Z/N from it. -/
def Cpu.setA (c : Cpu) (value : Nat) : Cpu :=
  let c1 : Cpu := { c with A := value }
  c1.setArithmeticFlags c1.A

/-- Modelled from the spec: `setX` loads the X register and recomputes Z/N from it. -/
def Cpu.setX (c : Cpu) (value : Nat) : Cpu :=
  let c1 : Cpu := { c with X := value }
  c1.setArithmeticFlags c1.X

/-- Modelled from the spec: `setY` loads the Y register and recomputes Z/N from it. -/
def Cpu.setY (c : Cpu) (value : Nat) : Cpu :=
  let c1 : Cpu := { c with Y := value }
  c1.setArithmeticFlags c1.Y

/-- Modelled from the spec: `stackPush` stores a byte at the stack pointer inside the stack
page (the second 256-byte page) and then decrements the 8-bit stack pointer. -/
def Cpu.stackPush (c : Cpu) (value : Nat) : Cpu :=
  { c with bus := c.bus.Write (0x100 + c.SP) value, SP := sub8 c.SP 1 }

/-! ## Arithmetic cores (`cpu_instructions.go`, lines 199-271) -/

/-- `Cpu.adcNormal`: regular 8-bit addition. -/
def Cpu.adcNormal (c : Cpu) (a b carryIn : Nat) : Cpu :=
  let result16 := (a + b + carryIn) % 65536
  let result := result16 % 256
  let carryOut := (result16 &&& 0x100) != 0
  let overflow := ((a ^^^ result) &&& (b ^^^ result) &&& 0x80) != 0
  let c1 := c.setCarry carryOut
  let c2 := c1.setOverflow overflow
  c2.setA result

/-- `Cpu.adcDecimal`: addition in decimal mode. -/
def Cpu.adcDecimal (c : Cpu) (a b carryIn : Nat) : Cpu :=
  let low0 := ((a &&& 0x0F) + (b &&& 0x0F) + carryIn) % 256
  let low := if (low0 &&& 0xFF) > 9 then (low0 + 6) % 256 else low0
  let carryB := if low > 15 then 1 else 0
  let high0 := ((a >>> 4) + (b >>> 4) + carryB) % 256
  let high := if (high0 &&& 0xFF) > 9 then (high0 + 6) % 256 else high0
  let result := (low &&& 0x0F) ||| (((high <<< 4) % 256) &&& 0xF0)
  let c1 := c.setCarry (decide (high > 15))
  let c2 := c1.setZero (result == 0)
  let c3 := c2.setNegative false
  let c4 := c3.setOverflow false
  { c4 with A := result }

/-- `Cpu.sbcDecimal`: subtraction in decimal mode. -/
def Cpu.sbcDecimal (c : Cpu) (a b carryIn : Nat) : Cpu :=
  let carryIn1 := if carryIn = 0 then 1 else 0
  let low0 := sub8 (sub8 (a &&& 0x0F) (b &&& 0x0F)) carryIn1
  let low := if (low0 &&& 0x10) != 0 then sub8 low0 6 else low0
  let carryB := if (low &&& 0x10) != 0 then 1 else 0
  let high0 := sub8 (sub8 (a >>> 4) (b >>> 4)) carryB
  let high := if (high0 &&& 0x10) != 0 then sub8 high0 6 else high0
  let result := (low &&& 0x0F) ||| ((high <<< 4) % 256)
  let c1 := c.setCarry (decide ((high &&& 0xFF) < 15))
  let c2 := c1.setZero (result == 0)
  let c3 := c2.setNegative false
  let c4 := c3.setOverflow false
  { c4 with A := result }

/-! ## Instruction handlers (`cpu_instructions.go`, lines 3-197) -/

/-- `Cpu.ADC`: add memory to accumulator with carry. -/
def ADC (R : Resolver) (c : Cpu) (instr : Instruction) : Cpu :=
  let operand := R.resolveOperand c instr
  let carryIn := c.getCarryInt
  if c.getDecimal then c.adcDecimal c.A operand carryIn
  else c.adcNormal c.A operand carryIn

/-- `Cpu.SBC`: subtract memory from accumulator with carry. -/
def SBC (R : Resolver) (c : Cpu) (instr : Instruction) : Cpu :=
  let operand := R.resolveOperand c instr
  let carryIn := c.getCarryInt
  if c.getDecimal then c.sbcDecimal c.A operand carryIn
  else c.adcNormal c.A (not8 operand) carryIn

/-- `Cpu.INC`: increment the byte at the effective address. -/
def INC (R : Resolver) (c : Cpu) (instr : Instruction) : Cpu :=
  let address := R.memoryAddress c instr
  let value := (c.bus.Read address + 1) % 256
  let c1 : Cpu := { c with bus := c.bus.Write address value }
  c1.setArithmeticFlags value

/-- `Cpu.DEC`: decrement the byte at the effective address. -/
def DEC (R : Resolver) (c : Cpu) (instr : Instruction) : Cpu :=
  let address := R.memoryAddress c instr
  let value := sub8 (c.bus.Read address) 1
  let c1 : Cpu := { c with bus := c.bus.Write address value }
  c1.setArithmeticFlags value

/-- `Cpu.LDA`. -/
def LDA (R : Resolver) (c : Cpu) (instr : Instruction) : Cpu :=
  let value := R.resolveOperand c instr
  c.setA value

/-- `Cpu.LDX`. -/
def LDX (R : Resolver) (c : Cpu) (instr : Instruction) : Cpu :=
  let value := R.resolveOperand c instr
  c.setX value

/-- `Cpu.LDY`. -/
def LDY (R : Resolver) (c : Cpu) (instr : Instruction) : Cpu :=
  let value := R.resolveOperand c instr
  c.setY value

/-- `Cpu.ORA`. -/
def ORA (R : Resolver) (c : Cpu) (instr : Instruction) : Cpu :=
  let value := R.resolveOperand c instr
  c.setA (c.A ||| value)

/-- `Cpu.AND`. -/
def AND (R : Resolver) (c : Cpu) (instr : Instruction) : Cpu :=
  let value := R.resolveOperand c instr
  c.setA (c.A &&& value)

/-- `Cpu.EOR`. -/
def EOR (R : Resolver) (c : Cpu) (instr : Instruction) : Cpu :=
  let value := R.resolveOperand c instr
  c.setA (c.A ^^^ value)

/-- `Cpu.STA`. -/
def STA (R : Resolver) (c : Cpu) (instr : Instruction) : Cpu :=
  let address := R.memoryAddress c instr
  { c with bus := c.bus.Write address c.A }

/-- `Cpu.STX`. -/
def STX (R : Resolver) (c : Cpu) (instr : Instruction) : Cpu :=
  let address := R.memoryAddress c instr
  { c with bus := c.bus.Write address c.X }

/-- `Cpu.STY`. -/
def STY (R : Resolver) (c : Cpu) (instr : Instruction) : Cpu :=
  let address := R.memoryAddress c instr
  { c with bus := c.bus.Write address c.Y }

/-- `Cpu.ASL`: arithmetic shift left. -/
def ASL (R : Resolver) (c : Cpu) (instr : Instruction) : Cpu :=
  match instr.addressingId with
  | .accumulator =>
    let c1 := c.setCarry ((c.A >>> 7) == 1)
    let c2 : Cpu := { c1 with A := (c1.A <<< 1) % 256 }
    c2.setArithmeticFlags c2.A
  | _ =>
    let address := R.memoryAddress c instr
    let value := c.bus.Read address
    let c1 := c.setCarry ((value >>> 7) == 1)
    let value1 := (value <<< 1) % 256
    let c2 : Cpu := { c1 with bus := c1.bus.Write address value1 }
    c2.setArithmeticFlags value1

/-- `Cpu.LSR`: logical shift right. -/
def LSR (R : Resolver) (c : Cpu) (instr : Instruction) : Cpu :=
  match instr.addressingId with
  | .accumulator =>
    let c1 := c.setCarry ((c.A &&& 0x01) == 1)
    let c2 : Cpu := { c1 with A := c1.A >>> 1 }
    c2.setArithmeticFlags c2.A
  | _ =>
    let address := R.memoryAddress c instr
    let value := c.bus.Read address
    let c1 := c.setCarry ((value &&& 0x01) == 1)
    let value1 := value >>> 1
    let c2 : Cpu := { c1 with bus := c1.bus.Write address value1 }
    c2.setArithmeticFlags value1

/-- `Cpu.ROL`: rotate left through carry. -/
def ROL (R : Resolver) (c : Cpu) (instr : Instruction) : Cpu :=
  let carry := c.getCarryInt
  match instr.addressingId with
  | .accumulator =>
    let c1 := c.setCarry ((c.A &&& 0x80) != 0)
    let c2 : Cpu := { c1 with A := ((c1.A <<< 1) % 256) ||| carry }
    c2.setArithmeticFlags c2.A
  | _ =>
    let address := R.memoryAddress c instr
    let value := c.bus.Read address
    let c1 := c.setCarry ((value &&& 0x80) != 0)
    let value1 := ((value <<< 1) % 256) ||| carry
    let c2 : Cpu := { c1 with bus := c1.bus.Write address value1 }
    c2.setArithmeticFlags value1

/-- `Cpu.ROR`: rotate right through carry. -/
def ROR (R : Resolver) (c : Cpu) (instr : Instruction) : Cpu :=
  let carry := c.getCarryInt
  match instr.addressingId with
  | .accumulator =>
    let c1 := c.setCarry ((c.A &&& 0x01) == 1)
    let c2 : Cpu := { c1 with A := (c1.A >>> 1) ||| ((carry <<< 7) % 256) }
    c2.setArithmeticFlags c2.A
  | _ =>
    let address := R.memoryAddress c instr
    let value := c.bus.Read address
    let c1 := c.setCarry ((value &&& 0x01) == 1)
    let value1 := (value >>> 1) ||| ((carry <<< 7) % 256)
    let c2 : Cpu := { c1 with bus := c1.bus.Write address value1 }
    c2.setArithmeticFlags value1

/-- `Cpu.CMP`: compare the accumulator with the operand. -/
def CMP (R : Resolver) (c : Cpu) (instr : Instruction) : Cpu :=
  let value := R.resolveOperand c instr
  let c1 := c.setCarry (decide (c.A ≥ value))
  c1.setArithmeticFlags (sub8 c1.A value)

/-- `Cpu.CPX`: compare the X register with the operand. -/
def CPX (R : Resolver) (c : Cpu) (instr : Instruction) : Cpu :=
  let value := R.resolveOperand c instr
  let c1 := c.setCarry (decide (c.X ≥ value))
  c1.setArithmeticFlags (sub8 c1.X value)

/-- `Cpu.CPY`: compare the Y register with the operand. -/
def CPY (R : Resolver) (c : Cpu) (instr : Instruction) : Cpu :=
  let value := R.resolveOperand c instr
  let c1 := c.setCarry (decide (c.Y ≥ value))
  c1.setArithmeticFlags (sub8 c1.Y value)

/-- `Cpu.BIT`: test bits of the operand against the accumulator. -/
def BIT (R : Resolver) (c : Cpu) (instr : Instruction) : Cpu :=
  let value := R.resolveOperand c instr
  let c1 := c.setNegative ((value &&& 0x80) != 0)
  let c2 := c1.setOverflow ((value &&& 0x40) != 0)
  c2.setZero ((c2.A &&& value) == 0)

/-- `Cpu.JMP`. -/
def JMP (R : Resolver) (c : Cpu) (instr : Instruction) : Cpu :=
  { c with PC := R.memoryAddress c instr }

/-- `Cpu.JSR`: push the return address minus one, high byte first, then jump. -/
def JSR (R : Resolver) (c : Cpu) (instr : Instruction) : Cpu :=
  let c1 := c.stackPush ((sub16 c.PC 1 >>> 8) % 256)
  let c2 := c1.stackPush (sub16 c1.PC 1 % 256)
  { c2 with PC := R.memoryAddress c2 instr }

/-! ## Concrete inputs used to exercise the theorems -/

/-- A bus whose every cell holds zero. -/
def zeroBus : Bus := { cells := fun _ => 0 }

/-- A processor state with the given accumulator, carry and decimal flag, everything else
zero or clear. -/
def mkCpu (a : Nat) (carry decimal : Bool) : Cpu :=
  { A := a, X := 0, Y := 0, PC := 0, SP := 0xFF, C := carry, Z := false, I := false,
    D := decimal, B := false, V := false, N := false, bus := zeroBus }

/-- A resolver in immediate style: the operand is the first inline byte of the descriptor,
the effective address is built from the first two inline bytes (low, high). -/
def inlineResolver : Resolver :=
  { resolveOperand := fun _ instr => instr.operandBytes.headD 0
    memoryAddress := fun _ instr =>
      instr.operandBytes.headD 0 + 256 * (instr.operandBytes.tail.headD 0) }

/-- An immediate-mode descriptor carrying one operand byte. -/
def imm (v : Nat) : Instruction := { addressingId := .immediate, operandBytes := [v] }

/-- An accumulator-mode descriptor. -/
def acc : Instruction := { addressingId := .accumulator, operandBytes := [] }

/-- A zero-page descriptor targeting address `a`. -/
def zp (a : Nat) : Instruction := { addressingId := .zeroPage, operandBytes := [a] }

/-- An absolute-mode descriptor targeting the address with low byte `lo` and high byte
`hi`. -/
def absolute (lo hi : Nat) : Instruction :=
  { addressingId := .absolute, operandBytes := [lo, hi] }

/-- A processor state whose bus holds `m` at address `a` and zero elsewhere. -/
def cpuWithCell (a m : Nat) : Cpu :=
  { mkCpu 0 false false with bus := zeroBus.Write a m }

/-! ## The 6551 ACIA (its source file is absent; only `acia6551_test.go` is present) -/

/-- Modelled from the spec: the ACIA device state of sections 3 and 4.3, whose declaration
(`acia6551.go`) is missing: the two single-slot buffers `rx` and `tx` with their full/empty
flags, the two IRQ enables, the latched `overrun` flag and the raw command and control
bytes. -/
structure Acia6551 where
  rx : Nat
  tx : Nat
  commandData : Nat
  controlData : Nat
  rxFull : Bool
  txEmpty : Bool
  rxIrqEnabled : Bool
  txIrqEnabled : Bool
  overrun : Bool
  deriving DecidableEq, Repr

/-- Modelled from the spec: register offset 0, the data register. -/
def aciaData : Nat := 0

/-- Modelled from the spec: register offset 1, the command register. -/
def aciaCommand : Nat := 1

/-- Modelled from the spec: register offset 2, the control register. -/
def aciaControl : Nat := 2

/-- Modelled from the spec: register offset 3, the status register. -/
def aciaStatus : Nat := 3

/-- Modelled from the spec: `Size` reports the fixed 4-address footprint of the device. -/
def Acia6551.Size (_a : Acia6551) : Nat := 4

/-- Modelled from the spec: `Reset` restores the power-on defaults, "tx=0, txEmpty=true,
rx=0, rxFull=false, txIrqEnabled=false, rxIrqEnabled=false, overrun=false, raw
command/control bytes = 0". -/
def Acia6551.Reset (_a : Acia6551) : Acia6551 :=
  { rx := 0, tx := 0, commandData := 0, controlData := 0, rxFull := false, txEmpty := true,
    rxIrqEnabled := false, txIrqEnabled := false, overrun := false }

/-- Modelled from the spec: the status byte, "bit2=overrun, bit3=rxFull, bit4=txEmpty, other
bits 0", recomputed on every read and never stored. -/
def Acia6551.statusRegister (a : Acia6551) : Nat :=
  (if a.overrun then 0x04 else 0) ||| (if a.rxFull then 0x08 else 0) |||
    (if a.txEmpty then 0x10 else 0)

/-- Modelled from the spec: a CPU-side register read.  It returns the device state, which no
read changes (the data register read "does not itself clear `rxFull`"), and the byte read:
`rx` at offset 0, the last raw command byte at offset 1, the last raw control byte at offset
2, the composed status at offset 3.  The device occupies four addresses; any other offset
reads 0. -/
def Acia6551.ReadByte (a : Acia6551) (address : Nat) : Acia6551 × Nat :=
  if address = aciaData then (a, a.rx)
  else if address = aciaCommand then (a, a.commandData)
  else if address = aciaControl then (a, a.controlData)
  else if address = aciaStatus then (a, a.statusRegister)
  else (a, 0)

/-- Modelled from the spec: a CPU-side register write.  Offset 0 sets the transmit buffer
and clears `txEmpty`; offset 1 stores the raw command byte and decodes bit 1 into
`rxIrqEnabled` and bit 2 into `txIrqEnabled`; offset 2 stores the raw control byte; a write
to the status register is ignored. -/
def Acia6551.WriteByte (a : Acia6551) (address value : Nat) : Acia6551 :=
  if address = aciaData then { a with tx := value, txEmpty := false }
  else if address = aciaCommand then
    { a with commandData := value, rxIrqEnabled := (value &&& 0x02) != 0,
             txIrqEnabled := (value &&& 0x04) != 0 }
  else if address = aciaControl then { a with controlData := value }
  else a

/-- Modelled from the spec: `consume(byte)`, the host-side fill of the receive buffer:
"stores byte into `rx`; transition to `full`; if already `full`, stays `full`, sets
`overrun`". -/
def Acia6551.consume (a : Acia6551) (b : Nat) : Acia6551 :=
  { a with rx := b, rxFull := true, overrun := a.overrun || a.rxFull }

/-- Modelled from the spec: the host-side stream write, "repeated single-byte applications in
call order"; it never fails and reports every byte as written. -/
def Acia6551.Write (a : Acia6551) (p : List Nat) : Acia6551 × Nat :=
  (p.foldl Acia6551.consume a, p.length)

/-- Modelled from the spec: the host-side drain of the transmit buffer: `full` goes to
`empty` and produces the byte, `empty` produces no byte. -/
def Acia6551.Read (a : Acia6551) : Acia6551 × List Nat :=
  if a.txEmpty then (a, []) else ({ a with txEmpty := true }, [a.tx])

/-- An ACIA state with every flag set and non-zero buffers, to exercise `Reset`. -/
def busyAcia : Acia6551 :=
  { rx := 0x55, tx := 0xAA, commandData := 0x06, controlData := 0xB8, rxFull := true,
    txEmpty := false, rxIrqEnabled := true, txIrqEnabled := true, overrun := true }

/-! ## Bit-level facts -/

/-- Masking with a single bit is non-zero exactly when that bit is set. -/
theorem and_two_pow_ne_zero (x i : Nat) : ((x &&& 2 ^ i) != 0) = x.testBit i := by
  rw [Nat.and_two_pow]
  cases x.testBit i <;> simp

theorem and_0x80_ne_zero (x : Nat) : ((x &&& 0x80) != 0) = x.testBit 7 :=
  and_two_pow_ne_zero x 7

theorem and_0x40_ne_zero (x : Nat) : ((x &&& 0x40) != 0) = x.testBit 6 :=
  and_two_pow_ne_zero x 6

theorem and_0x100_ne_zero (x : Nat) : ((x &&& 0x100) != 0) = x.testBit 8 :=
  and_two_pow_ne_zero x 8

theorem testBit_iff_div_mod (x i : Nat) : x.testBit i = true ↔ x / 2 ^ i % 2 = 1 := by
  rw [Nat.testBit_to_div_mod]; simp

/-- Bit 8 of a 9-bit sum is its carry out of eight bits. -/
theorem testBit8_of_lt (x : Nat) (h : x < 512) : x.testBit 8 = decide (256 ≤ x) := by
  rw [Nat.testBit_to_div_mod]
  congr 1
  simp only [eq_iff_iff]
  omega

set_option maxRecDepth 100000 in
/-- On a byte the bitwise complement is subtraction from 255. -/
theorem not8_eq_sub : ∀ v < 256, not8 v = 255 - v := by
  unfold not8; decide

theorem getCarryInt_le (c : Cpu) : c.getCarryInt ≤ 1 := by
  unfold Cpu.getCarryInt; split <;> omega

/-! ## Binary addition and subtraction -/

theorem adcNormal_A (c : Cpu) (a b k : Nat) :
    (c.adcNormal a b k).A = (a + b + k) % 65536 % 256 := rfl

theorem adcNormal_C (c : Cpu) (a b k : Nat) :
    (c.adcNormal a b k).C = ((a + b + k) % 65536).testBit 8 := by
  simp only [Cpu.adcNormal, Cpu.setA, Cpu.setArithmeticFlags, Cpu.setCarry, Cpu.setOverflow,
    Cpu.setZero, Cpu.setNegative, and_0x100_ne_zero]

/-- Binary `ADC` keeps the decimal flag clear, adds modulo 256 and reports the carry. -/
theorem ADC_binary_fields (R : Resolver) (c : Cpu) (instr : Instruction)
    (hD : c.D = false) (hA : c.A < 256) (hop : R.resolveOperand c instr < 256) :
    (ADC R c instr).D = false ∧
    (ADC R c instr).A = (c.A + R.resolveOperand c instr + c.getCarryInt) % 256 ∧
    (ADC R c instr).C = decide (256 ≤ c.A + R.resolveOperand c instr + c.getCarryInt) := by
  have hk := getCarryInt_le c
  have h512 : (c.A + R.resolveOperand c instr + c.getCarryInt) % 65536 < 512 := by omega
  refine ⟨?_, ?_, ?_⟩
  · simp only [ADC, Cpu.getDecimal, hD, Bool.false_eq_true, if_false]; exact hD
  · simp only [ADC, Cpu.getDecimal, hD, Bool.false_eq_true, if_false, adcNormal_A]; omega
  · simp only [ADC, Cpu.getDecimal, hD, Bool.false_eq_true, if_false, adcNormal_C,
      testBit8_of_lt _ h512]
    congr 1
    simp only [eq_iff_iff]
    omega

/-- Binary `SBC` adds the complemented operand modulo 256 and reports the carry. -/
theorem SBC_binary_fields (R : Resolver) (c : Cpu) (instr : Instruction)
    (hD : c.D = false) (hA : c.A < 256) (hop : R.resolveOperand c instr < 256) :
    (SBC R c instr).A = (c.A + (255 - R.resolveOperand c instr) + c.getCarryInt) % 256 ∧
    (SBC R c instr).C =
      decide (256 ≤ c.A + (255 - R.resolveOperand c instr) + c.getCarryInt) := by
  have hk := getCarryInt_le c
  have hn := not8_eq_sub _ hop
  have h512 : (c.A + (255 - R.resolveOperand c instr) + c.getCarryInt) % 65536 < 512 := by
    omega
  refine ⟨?_, ?_⟩
  · simp only [SBC, Cpu.getDecimal, hD, Bool.false_eq_true, if_false, adcNormal_A, hn]; omega
  · simp only [SBC, Cpu.getDecimal, hD, Bool.false_eq_true, if_false, adcNormal_C, hn,
      testBit8_of_lt _ h512]
    congr 1
    simp only [eq_iff_iff]
    omega

/-- C1. Binary ADC: with the Decimal flag clear, an 8-bit accumulator and an 8-bit operand,
`ADC` leaves `A = (A + operand + carryIn) mod 256`, sets C exactly when
`A + operand + carryIn >= 256`, sets V exactly when
`(A xor result) and (operand xor result) and 0x80` is non-zero, sets Z iff the new `A` is 0
and N iff bit 7 of the new `A` is set. -/
theorem ADC_binary (R : Resolver) (c : Cpu) (instr : Instruction)
    (hD : c.D = false) (hA : c.A < 256) (hop : R.resolveOperand c instr < 256) :
    (ADC R c instr).A = (c.A + R.resolveOperand c instr + (if c.C then 1 else 0)) % 256 ∧
    ((ADC R c instr).C = true ↔
      c.A + R.resolveOperand c instr + (if c.C then 1 else 0) ≥ 256) ∧
    ((ADC R c instr).V = true ↔
      ((c.A ^^^ (ADC R c instr).A) &&& (R.resolveOperand c instr ^^^ (ADC R c instr).A)
        &&& 0x80) ≠ 0) ∧
    ((ADC R c instr).Z = true ↔ (ADC R c instr).A = 0) ∧
    ((ADC R c instr).N = true ↔ (ADC R c instr).A.testBit 7 = true) := by
  have hc := getCarryInt_le c
  have hci : c.getCarryInt = (if c.C then 1 else 0) := rfl
  simp only [ADC, Cpu.getDecimal, hD, Cpu.adcNormal, Cpu.setA, Cpu.setArithmeticFlags,
    Cpu.setCarry, Cpu.setOverflow, Cpu.setZero, Cpu.setNegative, Bool.false_eq_true,
    if_false]
  rw [← hci]
  generalize R.resolveOperand c instr = b at *
  generalize c.getCarryInt = k at *
  refine ⟨?_, ?_, ?_, ?_, ?_⟩
  · omega
  · rw [and_0x100_ne_zero, testBit_iff_div_mod]; omega
  · simp
  · simp
  · rw [and_0x80_ne_zero]

/-- C1 at `A = 0xF0`, operand `0x20`, carry set: the sum wraps to `0x11` with carry out. -/
theorem ADC_binary_witness :
    (mkCpu 0xF0 true false).D = false ∧ (mkCpu 0xF0 true false).A < 256 ∧
    inlineResolver.resolveOperand (mkCpu 0xF0 true false) (imm 0x20) < 256 ∧
    (ADC inlineResolver (mkCpu 0xF0 true false) (imm 0x20)).A = 0x11 ∧
    ((ADC inlineResolver (mkCpu 0xF0 true false) (imm 0x20)).C = true ↔
      0xF0 + 0x20 + 1 ≥ 256) :=
  ⟨rfl, by decide, by decide,
    (ADC_binary inlineResolver (mkCpu 0xF0 true false) (imm 0x20) rfl (by decide)
      (by decide)).1,
    (ADC_binary inlineResolver (mkCpu 0xF0 true false) (imm 0x20) rfl (by decide)
      (by decide)).2.1⟩

/-- C2. Binary SBC is ADC of the complemented operand: with the Decimal flag clear, `SBC` of
an operand produces exactly the state `ADC` produces on the operand's bitwise complement,
hence leaves `A = (A - operand - (1 - carryIn)) mod 256` and sets C exactly when no borrow
occurred, `A >= operand + (1 - carryIn)`. -/
theorem SBC_binary (R : Resolver) (c : Cpu) (instr instr' : Instruction)
    (hD : c.D = false) (hA : c.A < 256) (hop : R.resolveOperand c instr < 256)
    (hR : R.resolveOperand c instr' = R.resolveOperand c instr ^^^ 0xFF) :
    SBC R c instr = ADC R c instr' ∧
    ((SBC R c instr).A : Int) =
      ((c.A : Int) - (R.resolveOperand c instr : Int) - (1 - (if c.C then 1 else 0))) % 256 ∧
    ((SBC R c instr).C = true ↔
      c.A ≥ R.resolveOperand c instr + (1 - (if c.C then 1 else 0))) := by
  have hn := not8_eq_sub _ hop
  refine ⟨?_, ?_, ?_⟩
  · simp only [SBC, ADC, Cpu.getDecimal, hD, Bool.false_eq_true, if_false, hR, not8]
  · simp only [SBC, Cpu.getDecimal, hD, Bool.false_eq_true, if_false, adcNormal_A, hn,
      Cpu.getCarryInt]
    generalize R.resolveOperand c instr = b at *
    cases c.C <;> simp <;> omega
  · simp only [SBC, Cpu.getDecimal, hD, Bool.false_eq_true, if_false, adcNormal_C, hn,
      testBit_iff_div_mod, Cpu.getCarryInt]
    generalize R.resolveOperand c instr = b at *
    cases c.C <;> simp <;> omega

/-- C2 at `A = 0x50`, operand `0x30`, carry clear: `0x50 - 0x30 - 1 = 0x1F`, the state ADC
produces on `0xCF`. -/
theorem SBC_binary_witness :
    (mkCpu 0x50 false false).D = false ∧ (mkCpu 0x50 false false).A < 256 ∧
    inlineResolver.resolveOperand (mkCpu 0x50 false false) (imm 0x30) < 256 ∧
    inlineResolver.resolveOperand (mkCpu 0x50 false false) (imm 0xCF) =
      inlineResolver.resolveOperand (mkCpu 0x50 false false) (imm 0x30) ^^^ 0xFF ∧
    SBC inlineResolver (mkCpu 0x50 false false) (imm 0x30)
      = ADC inlineResolver (mkCpu 0x50 false false) (imm 0xCF) ∧
    ((SBC inlineResolver (mkCpu 0x50 false false) (imm 0x30)).A : Int) = 0x1F ∧
    ((SBC inlineResolver (mkCpu 0x50 false false) (imm 0x30)).C = true ↔ 0x50 ≥ 0x30 + 1) :=
  ⟨rfl, by decide, by decide, rfl,
    SBC_binary inlineResolver (mkCpu 0x50 false false) (imm 0x30) (imm 0xCF)
      rfl (by decide) (by decide) rfl⟩

/-- C3 fails as stated: from `A = 0`, carry clear, binary mode, `ADC #0` leaves `A = 0` with
carry clear, and `SBC #0` with that carry leaves `A = 0xFF`, not `0`. -/
theorem ADC_then_SBC_not_inverse :
    (mkCpu 0 false false).D = false ∧ (mkCpu 0 false false).A = 0 ∧
    inlineResolver.resolveOperand (mkCpu 0 false false) (imm 0) = 0 ∧
    inlineResolver.resolveOperand (ADC inlineResolver (mkCpu 0 false false) (imm 0)) (imm 0)
      = 0 ∧
    (ADC inlineResolver (mkCpu 0 false false) (imm 0)).C = false ∧
    (SBC inlineResolver (ADC inlineResolver (mkCpu 0 false false) (imm 0)) (imm 0)).A = 0xFF ∧
    (SBC inlineResolver (ADC inlineResolver (mkCpu 0 false false) (imm 0)) (imm 0)).A
      ≠ (mkCpu 0 false false).A := by
  decide

theorem adc_sbc_arith (a b : Nat) (x : Bool) (ha : a < 256) (hb : b < 256) :
    ((a + b + if x = true then 1 else 0) % 256 + (255 - b) +
        if decide (256 ≤ a + b + if x = true then 1 else 0) = true then 1 else 0) % 256 =
      (a + (if x = true then 1 else 0) +
        (if decide (256 ≤ a + b + if x = true then 1 else 0) = true then 1 else 0) + 255)
        % 256 ∧
    (((a + b + if x = true then 1 else 0) % 256 + (255 - b) +
        if decide (256 ≤ a + b + if x = true then 1 else 0) = true then 1 else 0) % 256 = a ↔
      decide (256 ≤ a + b + if x = true then 1 else 0) = !x) := by
  cases x <;> by_cases h : 256 ≤ a + b <;> by_cases h' : 256 ≤ a + b + 1 <;>
    simp [h, h'] <;> omega

/-- C3, amended. In binary mode, `ADC` of an operand followed by `SBC` of the same operand
with the carry the `ADC` produced leaves `A = (a + carryIn + carryOut - 1) mod 256`, where
`carryOut` is the carry of the `ADC`; `A` is restored to `a` exactly when the carry the `ADC`
produced differs from its carry-in. -/
theorem ADC_then_SBC (R : Resolver) (c : Cpu) (instr : Instruction)
    (hD : c.D = false) (hA : c.A < 256) (hop : R.resolveOperand c instr < 256)
    (hsame : R.resolveOperand (ADC R c instr) instr = R.resolveOperand c instr) :
    (SBC R (ADC R c instr) instr).A =
      (c.A + (if c.C then 1 else 0) + (if (ADC R c instr).C then 1 else 0) + 255) % 256 ∧
    ((SBC R (ADC R c instr) instr).A = c.A ↔ (ADC R c instr).C = !c.C) := by
  obtain ⟨hD1, hA1, hC1⟩ := ADC_binary_fields R c instr hD hA hop
  have hA1lt : (ADC R c instr).A < 256 := by rw [hA1]; omega
  have hS := (SBC_binary_fields R (ADC R c instr) instr hD1 hA1lt (by rw [hsame]; exact hop)).1
  rw [hsame] at hS
  rw [hS, hA1]
  simp only [Cpu.getCarryInt, hC1]
  exact adc_sbc_arith c.A _ c.C hA hop

/-- C3, amended, at `A = 0x12`, operand `0x34`, carry set: the `ADC` clears the carry and the
`SBC` returns to `0x12`. -/
theorem ADC_then_SBC_witness :
    (mkCpu 0x12 true false).D = false ∧ (mkCpu 0x12 true false).A < 256 ∧
    inlineResolver.resolveOperand (mkCpu 0x12 true false) (imm 0x34) < 256 ∧
    inlineResolver.resolveOperand (ADC inlineResolver (mkCpu 0x12 true false) (imm 0x34))
      (imm 0x34) = inlineResolver.resolveOperand (mkCpu 0x12 true false) (imm 0x34) ∧
    ((SBC inlineResolver (ADC inlineResolver (mkCpu 0x12 true false) (imm 0x34))
        (imm 0x34)).A = 0x12 ↔
      (ADC inlineResolver (mkCpu 0x12 true false) (imm 0x34)).C = !true) :=
  ⟨rfl, by decide, by decide, rfl,
    (ADC_then_SBC inlineResolver (mkCpu 0x12 true false) (imm 0x34) rfl (by decide)
      (by decide) rfl).2⟩


/-! ## Decimal mode -/

/-- C4. Decimal-mode flag quirk: with the Decimal flag set, whatever the accumulator, the
operand, the carry-in and the previous N and V are, both `ADC` and `SBC` leave N = false and
V = false. -/
theorem decimal_clears_N_V (R : Resolver) (c : Cpu) (instr : Instruction)
    (hD : c.D = true) :
    (ADC R c instr).N = false ∧ (ADC R c instr).V = false ∧
    (SBC R c instr).N = false ∧ (SBC R c instr).V = false := by
  simp only [ADC, SBC, Cpu.getDecimal, hD, if_true, Cpu.adcDecimal, Cpu.sbcDecimal,
    Cpu.setCarry, Cpu.setZero, Cpu.setNegative, Cpu.setOverflow, and_self]

/-- C4 at `A = 0x99`, operand `0x99`, carry set, N and V set beforehand. -/
theorem decimal_clears_N_V_witness :
    ({ mkCpu 0x99 true true with N := true, V := true } : Cpu).D = true ∧
    (ADC inlineResolver { mkCpu 0x99 true true with N := true, V := true } (imm 0x99)).N
      = false ∧
    (ADC inlineResolver { mkCpu 0x99 true true with N := true, V := true } (imm 0x99)).V
      = false ∧
    (SBC inlineResolver { mkCpu 0x99 true true with N := true, V := true } (imm 0x99)).N
      = false ∧
    (SBC inlineResolver { mkCpu 0x99 true true with N := true, V := true } (imm 0x99)).V
      = false :=
  ⟨rfl, decimal_clears_N_V inlineResolver { mkCpu 0x99 true true with N := true, V := true }
    (imm 0x99) rfl⟩

/-- C5, evaluated where the code departs from it.  With `A = 0xF0`, operand `0x00` and carry
set (no borrow in), decimal `SBC` computes a high nibble of 15 and clears C through
`high < 15`, although no borrow left the high nibble.  With `A = 0x00`, operand `0x0F` and
carry clear, the low nibble underflows to `0xF0`, the `-6` adjustment clears bit 4 before it
is tested, no nibble borrow is recorded and C stays set, although a borrow did leave the high
nibble. -/
theorem SBC_decimal_carry_off_by_one :
    (mkCpu 0xF0 true true).D = true ∧
    (SBC inlineResolver (mkCpu 0xF0 true true) (imm 0x00)).C = false ∧
    ¬ ((0xF0 >>> 4) < (0x00 >>> 4) +
        (if (0xF0 &&& 0xF) < (0x00 &&& 0xF) + (1 - 1) then 1 else 0)) ∧
    (mkCpu 0x00 false true).D = true ∧
    (SBC inlineResolver (mkCpu 0x00 false true) (imm 0x0F)).C = true ∧
    ((0x00 >>> 4) < (0x0F >>> 4) +
        (if (0x00 &&& 0xF) < (0x0F &&& 0xF) + (1 - 0) then 1 else 0)) := by
  decide

/-! ## Compare -/

theorem sub8_eq_emod (r v : Nat) : ((sub8 r v : Nat) : Int) = ((r : Int) - (v : Int)) % 256 := by
  unfold sub8; omega

theorem sub8_eq_zero_iff (r v : Nat) (hr : r < 256) (hv : v < 256) : sub8 r v = 0 ↔ r = v := by
  unfold sub8; omega

/-- The effect of a compare of register value `r` with operand `v`. -/
theorem compare_core (c : Cpu) (r v : Nat) (hr : r < 256) (hv : v < 256) :
    (((c.setCarry (decide (r ≥ v))).setArithmeticFlags (sub8 r v)).C = true ↔ r ≥ v) ∧
    (((c.setCarry (decide (r ≥ v))).setArithmeticFlags (sub8 r v)).Z = true ↔ r = v) ∧
    (((c.setCarry (decide (r ≥ v))).setArithmeticFlags (sub8 r v)).N = true ↔
      ((((r : Int) - (v : Int)) % 256).toNat).testBit 7 = true) ∧
    ((c.setCarry (decide (r ≥ v))).setArithmeticFlags (sub8 r v)).A = c.A ∧
    ((c.setCarry (decide (r ≥ v))).setArithmeticFlags (sub8 r v)).X = c.X ∧
    ((c.setCarry (decide (r ≥ v))).setArithmeticFlags (sub8 r v)).Y = c.Y ∧
    ((c.setCarry (decide (r ≥ v))).setArithmeticFlags (sub8 r v)).V = c.V := by
  have h1 := sub8_eq_zero_iff r v hr hv
  have h2 : (((r : Int) - (v : Int)) % 256).toNat = sub8 r v := by
    rw [← sub8_eq_emod]; simp
  simp only [Cpu.setCarry, Cpu.setArithmeticFlags, Cpu.setZero, Cpu.setNegative,
    and_0x80_ne_zero, h2, decide_eq_true_eq, beq_iff_eq, h1, and_self]

/-- C6. Compare: for a register value `r` (`A` for `CMP`, `X` for `CPX`, `Y` for `CPY`) and
an operand `v`, the compare sets C iff `r >= v`, Z iff `r = v` and N iff bit 7 of
`(r - v) mod 256` is set, and leaves `A`, `X`, `Y` and V unchanged; when `r = v` it yields
Z = true, C = true and N = false. -/
theorem compare_flags (R : Resolver) (c : Cpu) (instr : Instruction)
    (hA : c.A < 256) (hX : c.X < 256) (hY : c.Y < 256)
    (hv : R.resolveOperand c instr < 256) :
    (((CMP R c instr).C = true ↔ c.A ≥ R.resolveOperand c instr) ∧
      ((CMP R c instr).Z = true ↔ c.A = R.resolveOperand c instr) ∧
      ((CMP R c instr).N = true ↔
        ((((c.A : Int) - (R.resolveOperand c instr : Int)) % 256).toNat).testBit 7 = true) ∧
      (CMP R c instr).A = c.A ∧ (CMP R c instr).X = c.X ∧ (CMP R c instr).Y = c.Y ∧
      (CMP R c instr).V = c.V) ∧
    (((CPX R c instr).C = true ↔ c.X ≥ R.resolveOperand c instr) ∧
      ((CPX R c instr).Z = true ↔ c.X = R.resolveOperand c instr) ∧
      ((CPX R c instr).N = true ↔
        ((((c.X : Int) - (R.resolveOperand c instr : Int)) % 256).toNat).testBit 7 = true) ∧
      (CPX R c instr).A = c.A ∧ (CPX R c instr).X = c.X ∧ (CPX R c instr).Y = c.Y ∧
      (CPX R c instr).V = c.V) ∧
    (((CPY R c instr).C = true ↔ c.Y ≥ R.resolveOperand c instr) ∧
      ((CPY R c instr).Z = true ↔ c.Y = R.resolveOperand c instr) ∧
      ((CPY R c instr).N = true ↔
        ((((c.Y : Int) - (R.resolveOperand c instr : Int)) % 256).toNat).testBit 7 = true) ∧
      (CPY R c instr).A = c.A ∧ (CPY R c instr).X = c.X ∧ (CPY R c instr).Y = c.Y ∧
      (CPY R c instr).V = c.V) ∧
    (c.A = R.resolveOperand c instr →
      (CMP R c instr).Z = true ∧ (CMP R c instr).C = true ∧ (CMP R c instr).N = false) ∧
    (c.X = R.resolveOperand c instr →
      (CPX R c instr).Z = true ∧ (CPX R c instr).C = true ∧ (CPX R c instr).N = false) ∧
    (c.Y = R.resolveOperand c instr →
      (CPY R c instr).Z = true ∧ (CPY R c instr).C = true ∧ (CPY R c instr).N = false) := by
  have hcmp := compare_core c c.A (R.resolveOperand c instr) hA hv
  have hcpx := compare_core c c.X (R.resolveOperand c instr) hX hv
  have hcpy := compare_core c c.Y (R.resolveOperand c instr) hY hv
  have hN : ∀ r : Nat, ¬ (((((r : Int) - (r : Int)) % 256).toNat).testBit 7 = true) := by
    intro r; simp
  refine ⟨hcmp, hcpx, hcpy, ?_, ?_, ?_⟩
  · intro h
    refine ⟨hcmp.2.1.mpr h, hcmp.1.mpr (by omega), ?_⟩
    exact Bool.eq_false_iff.mpr (fun hn => hN _ (by
      have h7 := hcmp.2.2.1.mp hn
      rwa [← h] at h7))
  · intro h
    refine ⟨hcpx.2.1.mpr h, hcpx.1.mpr (by omega), ?_⟩
    exact Bool.eq_false_iff.mpr (fun hn => hN _ (by
      have h7 := hcpx.2.2.1.mp hn
      rwa [← h] at h7))
  · intro h
    refine ⟨hcpy.2.1.mpr h, hcpy.1.mpr (by omega), ?_⟩
    exact Bool.eq_false_iff.mpr (fun hn => hN _ (by
      have h7 := hcpy.2.2.1.mp hn
      rwa [← h] at h7))

/-- C6 at `A = 0x40` compared with `0x40`. -/
theorem compare_flags_witness :
    (mkCpu 0x40 false false).A < 256 ∧ (mkCpu 0x40 false false).X < 256 ∧
    (mkCpu 0x40 false false).Y < 256 ∧
    inlineResolver.resolveOperand (mkCpu 0x40 false false) (imm 0x40) < 256 ∧
    (mkCpu 0x40 false false).A = inlineResolver.resolveOperand (mkCpu 0x40 false false) (imm 0x40) ∧
    ((CMP inlineResolver (mkCpu 0x40 false false) (imm 0x40)).Z = true ∧
      (CMP inlineResolver (mkCpu 0x40 false false) (imm 0x40)).C = true ∧
      (CMP inlineResolver (mkCpu 0x40 false false) (imm 0x40)).N = false) :=
  ⟨by decide, by decide, by decide, by decide, rfl,
    (compare_flags inlineResolver (mkCpu 0x40 false false) (imm 0x40) (by decide) (by decide)
      (by decide) (by decide)).2.2.2.1 rfl⟩

/-! ## Shifts and rotates -/

theorem Bus.read_write_same (b : Bus) (address value : Nat) :
    (b.Write address value).Read address = value := by
  simp [Bus.Read, Bus.Write]

theorem Bus.read_write_other (b : Bus) (address value a : Nat) (h : a ≠ address) :
    (b.Write address value).Read a = b.Read a := by
  simp [Bus.Read, Bus.Write, h]

theorem shr7_eq_one (v : Nat) (hv : v < 256) : ((v >>> 7) == 1) = v.testBit 7 := by
  rw [Nat.testBit_to_div_mod, Nat.shiftRight_eq_div_pow]
  have h : v / 2 ^ 7 < 2 := by omega
  rw [Nat.mod_eq_of_lt h]
  cases hd : decide (v / 2 ^ 7 = 1) <;> simp_all

theorem and1_eq_one (v : Nat) : ((v &&& 0x01) == 1) = v.testBit 0 := by
  rw [Nat.testBit_to_div_mod, Nat.and_one_is_mod]
  simp
  cases hd : decide (v % 2 = 1) <;> simp_all

theorem shl1_mod (v : Nat) : (v <<< 1) % 256 = (2 * v) % 256 := by
  rw [Nat.shiftLeft_eq]; omega

theorem shr1_eq (v : Nat) : v >>> 1 = v / 2 := by
  rw [Nat.shiftRight_eq_div_pow]

theorem carry_shl7 (c : Cpu) : (c.getCarryInt <<< 7) % 256 = c.getCarryInt <<< 7 := by
  unfold Cpu.getCarryInt; cases c.C <;> simp

/-- C7. Shift/rotate semantics: for the 8-bit value `v` read from the accumulator in
accumulator mode and from the byte at `memoryAddress` otherwise, and the old carry `c`,
`ASL` yields `(2v) mod 256` and `ROL` yields `((2v) mod 256) | c`, both with new C = bit 7 of
`v`; `LSR` yields `v / 2` and `ROR` yields `(v / 2) | (c << 7)`, both with new C = bit 0 of
`v`; the new value is found in the place `v` was read from, Z and N are recomputed from the
new value, and V is unchanged. -/
theorem shift_rotate (R : Resolver) (c : Cpu) (instr : Instruction) (v : Nat) (hv : v < 256)
    (hread : (if instr.addressingId = .accumulator then c.A
      else c.bus.Read (R.memoryAddress c instr)) = v) :
    ((if instr.addressingId = .accumulator then (ASL R c instr).A
        else (ASL R c instr).bus.Read (R.memoryAddress c instr)) = (2 * v) % 256 ∧
      (ASL R c instr).C = v.testBit 7 ∧
      ((ASL R c instr).Z = true ↔ (2 * v) % 256 = 0) ∧
      ((ASL R c instr).N = true ↔ ((2 * v) % 256).testBit 7 = true) ∧
      (ASL R c instr).V = c.V) ∧
    ((if instr.addressingId = .accumulator then (ROL R c instr).A
        else (ROL R c instr).bus.Read (R.memoryAddress c instr))
          = ((2 * v) % 256) ||| (if c.C then 1 else 0) ∧
      (ROL R c instr).C = v.testBit 7 ∧
      ((ROL R c instr).Z = true ↔ (((2 * v) % 256) ||| (if c.C then 1 else 0)) = 0) ∧
      ((ROL R c instr).N = true ↔
        (((2 * v) % 256) ||| (if c.C then 1 else 0)).testBit 7 = true) ∧
      (ROL R c instr).V = c.V) ∧
    ((if instr.addressingId = .accumulator then (LSR R c instr).A
        else (LSR R c instr).bus.Read (R.memoryAddress c instr)) = v / 2 ∧
      (LSR R c instr).C = v.testBit 0 ∧
      ((LSR R c instr).Z = true ↔ v / 2 = 0) ∧
      ((LSR R c instr).N = true ↔ (v / 2).testBit 7 = true) ∧
      (LSR R c instr).V = c.V) ∧
    ((if instr.addressingId = .accumulator then (ROR R c instr).A
        else (ROR R c instr).bus.Read (R.memoryAddress c instr))
          = (v / 2) ||| ((if c.C then 1 else 0) <<< 7) ∧
      (ROR R c instr).C = v.testBit 0 ∧
      ((ROR R c instr).Z = true ↔ ((v / 2) ||| ((if c.C then 1 else 0) <<< 7)) = 0) ∧
      ((ROR R c instr).N = true ↔
        ((v / 2) ||| ((if c.C then 1 else 0) <<< 7)).testBit 7 = true) ∧
      (ROR R c instr).V = c.V) := by
  have hk : (if c.C then 1 else 0) = c.getCarryInt := rfl
  rw [hk]
  obtain ⟨mode, bytes⟩ := instr
  cases mode <;> simp only [reduceCtorEq, if_true, if_false] at hread <;> subst hread <;>
    simp only [ASL, ROL, LSR, ROR, Cpu.setCarry, Cpu.setArithmeticFlags, Cpu.setZero,
      Cpu.setNegative, Bus.read_write_same, shr7_eq_one _ hv, and1_eq_one, shl1_mod, shr1_eq,
      carry_shl7, and_0x80_ne_zero, beq_iff_eq, reduceCtorEq, if_true, if_false, and_self]

/-- C7 in accumulator mode at `A = 0x81` with carry set: `ROL` gives `0x03`, `ROR` gives
`0xC0`, both with carry out. -/
theorem shift_rotate_witness :
    (0x81 : Nat) < 256 ∧
    (if acc.addressingId = .accumulator then (mkCpu 0x81 true false).A
      else (mkCpu 0x81 true false).bus.Read
        (inlineResolver.memoryAddress (mkCpu 0x81 true false) acc)) = 0x81 ∧
    (ROL inlineResolver (mkCpu 0x81 true false) acc).A = 0x03 ∧
    (ROL inlineResolver (mkCpu 0x81 true false) acc).C = true ∧
    (ROR inlineResolver (mkCpu 0x81 true false) acc).A = 0xC0 ∧
    (ROR inlineResolver (mkCpu 0x81 true false) acc).C = true :=
  ⟨by decide, rfl,
    (shift_rotate inlineResolver (mkCpu 0x81 true false) acc 0x81 (by decide) rfl).2.1.1,
    (shift_rotate inlineResolver (mkCpu 0x81 true false) acc 0x81 (by decide) rfl).2.1.2.1,
    (shift_rotate inlineResolver (mkCpu 0x81 true false) acc 0x81 (by decide)
      rfl).2.2.2.1,
    (shift_rotate inlineResolver (mkCpu 0x81 true false) acc 0x81 (by decide)
      rfl).2.2.2.2.1⟩

set_option maxRecDepth 100000 in
/-- A byte is its low seven bits with bit 7 put back. -/
theorem low7_or_bit7 : ∀ a < 256,
    (a % 128) ||| ((if a.testBit 7 = true then 1 else 0) <<< 7) = a := by
  decide

/-- C8. ASL/LSR round trip by manual reconstruction: in accumulator addressing, for an 8-bit
accumulator `a`, `ASL` (which leaves the shifted-out bit in C, `c1`) followed by `LSR` gives
an accumulator `a2` with `a2 | (c1 << 7) = a`, and `a2 = a & 0x7F`. -/
theorem ASL_then_LSR (R : Resolver) (c : Cpu) (instr : Instruction)
    (hacc : instr.addressingId = .accumulator) (hA : c.A < 256) :
    (LSR R (ASL R c instr) instr).A ||| ((if (ASL R c instr).C then 1 else 0) <<< 7) = c.A ∧
    (LSR R (ASL R c instr) instr).A = c.A &&& 0x7F := by
  have hmask : c.A &&& 0x7F = c.A % 128 := Nat.and_pow_two_sub_one_eq_mod c.A 7
  have hhalf : (2 * c.A) % 256 / 2 = c.A % 128 := by omega
  obtain ⟨mode, bytes⟩ := instr
  cases hacc
  simp only [ASL, LSR, Cpu.setCarry, Cpu.setArithmeticFlags, Cpu.setZero, Cpu.setNegative,
    shr7_eq_one _ hA, shl1_mod, shr1_eq, hmask, hhalf, and_true]
  exact low7_or_bit7 c.A hA

/-- C8 at `A = 0xB5`: `ASL` then `LSR` leaves `0x35` with `c1 = 1`, and `0x35 | 0x80 = 0xB5`. -/
theorem ASL_then_LSR_witness :
    acc.addressingId = .accumulator ∧ (mkCpu 0xB5 false false).A < 256 ∧
    (LSR inlineResolver (ASL inlineResolver (mkCpu 0xB5 false false) acc) acc).A = 0x35 ∧
    (LSR inlineResolver (ASL inlineResolver (mkCpu 0xB5 false false) acc) acc).A |||
      ((if (ASL inlineResolver (mkCpu 0xB5 false false) acc).C then 1 else 0) <<< 7) = 0xB5 :=
  ⟨rfl, by decide, by decide,
    (ASL_then_LSR inlineResolver (mkCpu 0xB5 false false) acc rfl (by decide)).1⟩

/-! ## Tests and flags from produced values -/

/-- C9. Z/N are never stale: after each value-producing handler (`LDA`, `LDX`, `LDY`,
`ORA`, `AND`, `EOR`, `INC`, `DEC`, `ASL`, `LSR`, `ROL`, `ROR`, and `ADC`/`SBC` with the
Decimal flag clear), for every input state, Z is true iff the value the handler produced (the
new register, or the new byte at `memoryAddress`) is 0, and N is true iff bit 7 of that value
is set. -/
theorem Z_N_from_result (R : Resolver) (c : Cpu) (instr : Instruction) :
    (((LDA R c instr).Z = true ↔ (LDA R c instr).A = 0) ∧
      ((LDA R c instr).N = true ↔ (LDA R c instr).A.testBit 7 = true)) ∧
    (((LDX R c instr).Z = true ↔ (LDX R c instr).X = 0) ∧
      ((LDX R c instr).N = true ↔ (LDX R c instr).X.testBit 7 = true)) ∧
    (((LDY R c instr).Z = true ↔ (LDY R c instr).Y = 0) ∧
      ((LDY R c instr).N = true ↔ (LDY R c instr).Y.testBit 7 = true)) ∧
    (((ORA R c instr).Z = true ↔ (ORA R c instr).A = 0) ∧
      ((ORA R c instr).N = true ↔ (ORA R c instr).A.testBit 7 = true)) ∧
    (((AND R c instr).Z = true ↔ (AND R c instr).A = 0) ∧
      ((AND R c instr).N = true ↔ (AND R c instr).A.testBit 7 = true)) ∧
    (((EOR R c instr).Z = true ↔ (EOR R c instr).A = 0) ∧
      ((EOR R c instr).N = true ↔ (EOR R c instr).A.testBit 7 = true)) ∧
    (((INC R c instr).Z = true ↔ (INC R c instr).bus.Read (R.memoryAddress c instr) = 0) ∧
      ((INC R c instr).N = true ↔
        ((INC R c instr).bus.Read (R.memoryAddress c instr)).testBit 7 = true)) ∧
    (((DEC R c instr).Z = true ↔ (DEC R c instr).bus.Read (R.memoryAddress c instr) = 0) ∧
      ((DEC R c instr).N = true ↔
        ((DEC R c instr).bus.Read (R.memoryAddress c instr)).testBit 7 = true)) ∧
    (((ASL R c instr).Z = true ↔
        (if instr.addressingId = .accumulator then (ASL R c instr).A
          else (ASL R c instr).bus.Read (R.memoryAddress c instr)) = 0) ∧
      ((ASL R c instr).N = true ↔
        (if instr.addressingId = .accumulator then (ASL R c instr).A
          else (ASL R c instr).bus.Read (R.memoryAddress c instr)).testBit 7 = true)) ∧
    (((LSR R c instr).Z = true ↔
        (if instr.addressingId = .accumulator then (LSR R c instr).A
          else (LSR R c instr).bus.Read (R.memoryAddress c instr)) = 0) ∧
      ((LSR R c instr).N = true ↔
        (if instr.addressingId = .accumulator then (LSR R c instr).A
          else (LSR R c instr).bus.Read (R.memoryAddress c instr)).testBit 7 = true)) ∧
    (((ROL R c instr).Z = true ↔
        (if instr.addressingId = .accumulator then (ROL R c instr).A
          else (ROL R c instr).bus.Read (R.memoryAddress c instr)) = 0) ∧
      ((ROL R c instr).N = true ↔
        (if instr.addressingId = .accumulator then (ROL R c instr).A
          else (ROL R c instr).bus.Read (R.memoryAddress c instr)).testBit 7 = true)) ∧
    (((ROR R c instr).Z = true ↔
        (if instr.addressingId = .accumulator then (ROR R c instr).A
          else (ROR R c instr).bus.Read (R.memoryAddress c instr)) = 0) ∧
      ((ROR R c instr).N = true ↔
        (if instr.addressingId = .accumulator then (ROR R c instr).A
          else (ROR R c instr).bus.Read (R.memoryAddress c instr)).testBit 7 = true)) ∧
    (c.D = false →
      ((ADC R c instr).Z = true ↔ (ADC R c instr).A = 0) ∧
      ((ADC R c instr).N = true ↔ (ADC R c instr).A.testBit 7 = true)) ∧
    (c.D = false →
      ((SBC R c instr).Z = true ↔ (SBC R c instr).A = 0) ∧
      ((SBC R c instr).N = true ↔ (SBC R c instr).A.testBit 7 = true)) := by
  refine ⟨?_, ?_, ?_, ?_, ?_, ?_, ?_, ?_, ?_, ?_, ?_, ?_, ?_, ?_⟩
  · simp only [LDA, Cpu.setA, Cpu.setArithmeticFlags, Cpu.setZero, Cpu.setNegative,
      and_0x80_ne_zero, beq_iff_eq, and_self]
  · simp only [LDX, Cpu.setX, Cpu.setArithmeticFlags, Cpu.setZero, Cpu.setNegative,
      and_0x80_ne_zero, beq_iff_eq, and_self]
  · simp only [LDY, Cpu.setY, Cpu.setArithmeticFlags, Cpu.setZero, Cpu.setNegative,
      and_0x80_ne_zero, beq_iff_eq, and_self]
  · simp only [ORA, Cpu.setA, Cpu.setArithmeticFlags, Cpu.setZero, Cpu.setNegative,
      and_0x80_ne_zero, beq_iff_eq, and_self]
  · simp only [AND, Cpu.setA, Cpu.setArithmeticFlags, Cpu.setZero, Cpu.setNegative,
      and_0x80_ne_zero, beq_iff_eq, and_self]
  · simp only [EOR, Cpu.setA, Cpu.setArithmeticFlags, Cpu.setZero, Cpu.setNegative,
      and_0x80_ne_zero, beq_iff_eq, and_self]
  · simp only [INC, Cpu.setArithmeticFlags, Cpu.setZero, Cpu.setNegative,
      Bus.read_write_same, and_0x80_ne_zero, beq_iff_eq, and_self]
  · simp only [DEC, Cpu.setArithmeticFlags, Cpu.setZero, Cpu.setNegative,
      Bus.read_write_same, and_0x80_ne_zero, beq_iff_eq, and_self]
  · obtain ⟨mode, bytes⟩ := instr
    cases mode <;>
      simp only [ASL, Cpu.setCarry, Cpu.setArithmeticFlags, Cpu.setZero, Cpu.setNegative,
        Bus.read_write_same, and_0x80_ne_zero, beq_iff_eq, reduceCtorEq, if_true, if_false,
        and_self]
  · obtain ⟨mode, bytes⟩ := instr
    cases mode <;>
      simp only [LSR, Cpu.setCarry, Cpu.setArithmeticFlags, Cpu.setZero, Cpu.setNegative,
        Bus.read_write_same, and_0x80_ne_zero, beq_iff_eq, reduceCtorEq, if_true, if_false,
        and_self]
  · obtain ⟨mode, bytes⟩ := instr
    cases mode <;>
      simp only [ROL, Cpu.setCarry, Cpu.setArithmeticFlags, Cpu.setZero, Cpu.setNegative,
        Bus.read_write_same, and_0x80_ne_zero, beq_iff_eq, reduceCtorEq, if_true, if_false,
        and_self]
  · obtain ⟨mode, bytes⟩ := instr
    cases mode <;>
      simp only [ROR, Cpu.setCarry, Cpu.setArithmeticFlags, Cpu.setZero, Cpu.setNegative,
        Bus.read_write_same, and_0x80_ne_zero, beq_iff_eq, reduceCtorEq, if_true, if_false,
        and_self]
  · intro hD
    simp only [ADC, Cpu.getDecimal, hD, Cpu.adcNormal, Cpu.setA, Cpu.setArithmeticFlags,
      Cpu.setCarry, Cpu.setOverflow, Cpu.setZero, Cpu.setNegative, Bool.false_eq_true,
      if_false, and_0x80_ne_zero, beq_iff_eq, and_self]
  · intro hD
    simp only [SBC, Cpu.getDecimal, hD, Cpu.adcNormal, Cpu.setA, Cpu.setArithmeticFlags,
      Cpu.setCarry, Cpu.setOverflow, Cpu.setZero, Cpu.setNegative, Bool.false_eq_true,
      if_false, and_0x80_ne_zero, beq_iff_eq, and_self]

/-- C9 at `A = 0x7F`, operand `0x01`, carry clear, binary mode: `ADC` produces `0x80`, so Z
is clear and N is set; `SBC` of `0x7F` with carry set from `A = 0x7F` produces 0 and sets Z. -/
theorem Z_N_from_result_witness :
    (mkCpu 0x7F false false).D = false ∧
    (ADC inlineResolver (mkCpu 0x7F false false) (imm 0x01)).A = 0x80 ∧
    ((ADC inlineResolver (mkCpu 0x7F false false) (imm 0x01)).N = true ↔
      (ADC inlineResolver (mkCpu 0x7F false false) (imm 0x01)).A.testBit 7 = true) ∧
    (mkCpu 0x7F true false).D = false ∧
    (SBC inlineResolver (mkCpu 0x7F true false) (imm 0x7F)).A = 0 ∧
    ((SBC inlineResolver (mkCpu 0x7F true false) (imm 0x7F)).Z = true ↔
      (SBC inlineResolver (mkCpu 0x7F true false) (imm 0x7F)).A = 0) :=
  ⟨rfl, by decide,
    ((Z_N_from_result inlineResolver (mkCpu 0x7F false false)
      (imm 0x01)).2.2.2.2.2.2.2.2.2.2.2.2.1 rfl).2,
    rfl, by decide,
    ((Z_N_from_result inlineResolver (mkCpu 0x7F true false)
      (imm 0x7F)).2.2.2.2.2.2.2.2.2.2.2.2.2 rfl).1⟩

/-- C10. BIT: for every accumulator and operand `v`, `BIT` sets N to bit 7 of `v`, V to bit 6
of `v` and Z to `(A and v) = 0`, and leaves `A`, `X`, `Y` and the carry flag unchanged. -/
theorem BIT_flags (R : Resolver) (c : Cpu) (instr : Instruction) :
    (BIT R c instr).N = (R.resolveOperand c instr).testBit 7 ∧
    (BIT R c instr).V = (R.resolveOperand c instr).testBit 6 ∧
    ((BIT R c instr).Z = true ↔ c.A &&& R.resolveOperand c instr = 0) ∧
    (BIT R c instr).A = c.A ∧ (BIT R c instr).X = c.X ∧ (BIT R c instr).Y = c.Y ∧
    (BIT R c instr).C = c.C := by
  simp only [BIT, Cpu.setNegative, Cpu.setOverflow, Cpu.setZero, and_0x80_ne_zero,
    and_0x40_ne_zero, beq_iff_eq, and_self]


/-! ## Increment, decrement and subroutine call -/

/-- C11. INC/DEC: for the byte `m` at `memoryAddress`, `INC` writes `(m + 1) mod 256` and
`DEC` writes `(m - 1) mod 256` to that same address (so `INC` of `0xFF` stores `0x00` and
`DEC` of `0x00` stores `0xFF`), Z and N are recomputed from the stored value, and `A`, `X`,
`Y`, C, V and every other memory cell are unchanged. -/
theorem INC_DEC_frame (R : Resolver) (c : Cpu) (instr : Instruction) :
    ((INC R c instr).bus.Read (R.memoryAddress c instr)
        = (c.bus.Read (R.memoryAddress c instr) + 1) % 256 ∧
      (c.bus.Read (R.memoryAddress c instr) = 0xFF →
        (INC R c instr).bus.Read (R.memoryAddress c instr) = 0x00) ∧
      ((INC R c instr).Z = true ↔ (INC R c instr).bus.Read (R.memoryAddress c instr) = 0) ∧
      ((INC R c instr).N = true ↔
        ((INC R c instr).bus.Read (R.memoryAddress c instr)).testBit 7 = true) ∧
      (INC R c instr).A = c.A ∧ (INC R c instr).X = c.X ∧ (INC R c instr).Y = c.Y ∧
      (INC R c instr).C = c.C ∧ (INC R c instr).V = c.V ∧
      (∀ a, a ≠ R.memoryAddress c instr → (INC R c instr).bus.Read a = c.bus.Read a)) ∧
    ((((DEC R c instr).bus.Read (R.memoryAddress c instr) : Nat) : Int)
        = ((c.bus.Read (R.memoryAddress c instr) : Int) - 1) % 256 ∧
      (c.bus.Read (R.memoryAddress c instr) = 0x00 →
        (DEC R c instr).bus.Read (R.memoryAddress c instr) = 0xFF) ∧
      ((DEC R c instr).Z = true ↔ (DEC R c instr).bus.Read (R.memoryAddress c instr) = 0) ∧
      ((DEC R c instr).N = true ↔
        ((DEC R c instr).bus.Read (R.memoryAddress c instr)).testBit 7 = true) ∧
      (DEC R c instr).A = c.A ∧ (DEC R c instr).X = c.X ∧ (DEC R c instr).Y = c.Y ∧
      (DEC R c instr).C = c.C ∧ (DEC R c instr).V = c.V ∧
      (∀ a, a ≠ R.memoryAddress c instr → (DEC R c instr).bus.Read a = c.bus.Read a)) := by
  refine ⟨⟨?_, ?_, ?_, ?_, ?_, ?_, ?_, ?_, ?_, ?_⟩, ⟨?_, ?_, ?_, ?_, ?_, ?_, ?_, ?_, ?_, ?_⟩⟩
  · simp only [INC, Cpu.setArithmeticFlags, Cpu.setZero, Cpu.setNegative, Bus.read_write_same]
  · intro h
    simp only [INC, Cpu.setArithmeticFlags, Cpu.setZero, Cpu.setNegative,
      Bus.read_write_same, h]
  · simp only [INC, Cpu.setArithmeticFlags, Cpu.setZero, Cpu.setNegative,
      Bus.read_write_same, beq_iff_eq]
  · simp only [INC, Cpu.setArithmeticFlags, Cpu.setZero, Cpu.setNegative,
      Bus.read_write_same, and_0x80_ne_zero]
  · simp only [INC, Cpu.setArithmeticFlags, Cpu.setZero, Cpu.setNegative]
  · simp only [INC, Cpu.setArithmeticFlags, Cpu.setZero, Cpu.setNegative]
  · simp only [INC, Cpu.setArithmeticFlags, Cpu.setZero, Cpu.setNegative]
  · simp only [INC, Cpu.setArithmeticFlags, Cpu.setZero, Cpu.setNegative]
  · simp only [INC, Cpu.setArithmeticFlags, Cpu.setZero, Cpu.setNegative]
  · intro a ha
    simp only [INC, Cpu.setArithmeticFlags, Cpu.setZero, Cpu.setNegative]
    exact Bus.read_write_other _ _ _ a ha
  · simp only [DEC, Cpu.setArithmeticFlags, Cpu.setZero, Cpu.setNegative,
      Bus.read_write_same, sub8_eq_emod]
    simp
  · intro h
    simp only [DEC, Cpu.setArithmeticFlags, Cpu.setZero, Cpu.setNegative,
      Bus.read_write_same, h]
    decide
  · simp only [DEC, Cpu.setArithmeticFlags, Cpu.setZero, Cpu.setNegative,
      Bus.read_write_same, beq_iff_eq]
  · simp only [DEC, Cpu.setArithmeticFlags, Cpu.setZero, Cpu.setNegative,
      Bus.read_write_same, and_0x80_ne_zero]
  · simp only [DEC, Cpu.setArithmeticFlags, Cpu.setZero, Cpu.setNegative]
  · simp only [DEC, Cpu.setArithmeticFlags, Cpu.setZero, Cpu.setNegative]
  · simp only [DEC, Cpu.setArithmeticFlags, Cpu.setZero, Cpu.setNegative]
  · simp only [DEC, Cpu.setArithmeticFlags, Cpu.setZero, Cpu.setNegative]
  · simp only [DEC, Cpu.setArithmeticFlags, Cpu.setZero, Cpu.setNegative]
  · intro a ha
    simp only [DEC, Cpu.setArithmeticFlags, Cpu.setZero, Cpu.setNegative]
    exact Bus.read_write_other _ _ _ a ha

/-- C11 at the cell `0x10`: `INC` of `0xFF` stores `0x00`, `DEC` of `0x00` stores `0xFF`, and
the cell `0x11` keeps its content. -/
theorem INC_DEC_frame_witness :
    (cpuWithCell 0x10 0xFF).bus.Read (inlineResolver.memoryAddress (cpuWithCell 0x10 0xFF)
      (zp 0x10)) = 0xFF ∧
    (INC inlineResolver (cpuWithCell 0x10 0xFF) (zp 0x10)).bus.Read
      (inlineResolver.memoryAddress (cpuWithCell 0x10 0xFF) (zp 0x10)) = 0x00 ∧
    (cpuWithCell 0x10 0x00).bus.Read (inlineResolver.memoryAddress (cpuWithCell 0x10 0x00)
      (zp 0x10)) = 0x00 ∧
    (DEC inlineResolver (cpuWithCell 0x10 0x00) (zp 0x10)).bus.Read
      (inlineResolver.memoryAddress (cpuWithCell 0x10 0x00) (zp 0x10)) = 0xFF ∧
    0x11 ≠ inlineResolver.memoryAddress (cpuWithCell 0x10 0xFF) (zp 0x10) ∧
    (INC inlineResolver (cpuWithCell 0x10 0xFF) (zp 0x10)).bus.Read 0x11
      = (cpuWithCell 0x10 0xFF).bus.Read 0x11 :=
  ⟨by decide,
    (INC_DEC_frame inlineResolver (cpuWithCell 0x10 0xFF) (zp 0x10)).1.2.1 (by decide),
    by decide,
    (INC_DEC_frame inlineResolver (cpuWithCell 0x10 0x00) (zp 0x10)).2.2.1 (by decide),
    by decide,
    (INC_DEC_frame inlineResolver (cpuWithCell 0x10 0xFF) (zp 0x10)).1.2.2.2.2.2.2.2.2.2
      0x11 (by decide)⟩

theorem sub8_one_ne (sp : Nat) : sub8 sp 1 ≠ sp := by
  unfold sub8; omega

theorem sub16_eq_emod (x y : Nat) :
    ((sub16 x y : Nat) : Int) = ((x : Int) - (y : Int)) % 65536 := by
  unfold sub16; omega

/-- C12. JSR return address: for every 16-bit `PC` (including `PC = 0`, where `PC - 1` wraps
to `0xFFFF`), `JSR` is exactly two stack pushes, first the high byte and then the low byte of
`(PC - 1) mod 65536`, so that `256 * first + second = (PC - 1) mod 65536`, followed by
`PC = memoryAddress(instr)`; the two bytes are found in the stack page at `SP` and `SP - 1`,
the stack pointer has dropped by two and no other cell has changed. -/
theorem JSR_pushes (R : Resolver) (c : Cpu) (instr : Instruction) :
    JSR R c instr =
      { (c.stackPush ((sub16 c.PC 1 >>> 8) % 256)).stackPush (sub16 c.PC 1 % 256) with
        PC := R.memoryAddress
          ((c.stackPush ((sub16 c.PC 1 >>> 8) % 256)).stackPush (sub16 c.PC 1 % 256)) instr } ∧
    ((sub16 c.PC 1 : Nat) : Int) = ((c.PC : Int) - 1) % 65536 ∧
    (c.PC = 0 → sub16 c.PC 1 = 0xFFFF) ∧
    (sub16 c.PC 1 >>> 8) % 256 = sub16 c.PC 1 / 256 ∧
    256 * ((sub16 c.PC 1 >>> 8) % 256) + sub16 c.PC 1 % 256 = sub16 c.PC 1 ∧
    (JSR R c instr).bus.Read (0x100 + c.SP) = (sub16 c.PC 1 >>> 8) % 256 ∧
    (JSR R c instr).bus.Read (0x100 + sub8 c.SP 1) = sub16 c.PC 1 % 256 ∧
    (JSR R c instr).SP = sub8 (sub8 c.SP 1) 1 ∧
    (∀ a, a ≠ 0x100 + c.SP → a ≠ 0x100 + sub8 c.SP 1 →
      (JSR R c instr).bus.Read a = c.bus.Read a) ∧
    (JSR R c instr).PC = R.memoryAddress
      ((c.stackPush ((sub16 c.PC 1 >>> 8) % 256)).stackPush (sub16 c.PC 1 % 256)) instr := by
  have hlt : sub16 c.PC 1 < 65536 := by unfold sub16; omega
  have hne := sub8_one_ne c.SP
  have hshift : sub16 c.PC 1 >>> 8 = sub16 c.PC 1 / 256 := Nat.shiftRight_eq_div_pow _ 8
  refine ⟨?_, sub16_eq_emod _ _, ?_, ?_, ?_, ?_, ?_, ?_, ?_, ?_⟩
  · simp only [JSR, Cpu.stackPush]
  · intro h0
    rw [h0]
    decide
  · rw [hshift]; omega
  · rw [hshift]; omega
  · simp only [JSR, Cpu.stackPush, Bus.Read, Bus.Write]
    have h : ¬ (256 + c.SP = 256 + sub8 c.SP 1) := by omega
    simp only [h, if_false, if_true]
  · simp only [JSR, Cpu.stackPush, Bus.Read, Bus.Write, if_true]
  · simp only [JSR, Cpu.stackPush]
  · intro a h1 h2
    simp only [JSR, Cpu.stackPush, Bus.Read, Bus.Write, h1, h2, if_false]
  · simp only [JSR, Cpu.stackPush]

/-- C12 at `PC = 0`, `SP = 0xFF`: both pushed bytes are `0xFF`, stored at `0x1FF` and
`0x1FE`, and the jump goes to `0x1234`. -/
theorem JSR_pushes_witness :
    (mkCpu 0 false false).PC = 0 ∧
    sub16 (mkCpu 0 false false).PC 1 = 0xFFFF ∧
    (JSR inlineResolver (mkCpu 0 false false) (absolute 0x34 0x12)).bus.Read 0x1FF = 0xFF ∧
    (JSR inlineResolver (mkCpu 0 false false) (absolute 0x34 0x12)).bus.Read 0x1FE = 0xFF ∧
    (JSR inlineResolver (mkCpu 0 false false) (absolute 0x34 0x12)).PC = 0x1234 :=
  ⟨rfl, (JSR_pushes inlineResolver (mkCpu 0 false false) (absolute 0x34 0x12)).2.2.1 rfl,
    (JSR_pushes inlineResolver (mkCpu 0 false false) (absolute 0x34 0x12)).2.2.2.2.2.1,
    (JSR_pushes inlineResolver (mkCpu 0 false false) (absolute 0x34 0x12)).2.2.2.2.2.2.1,
    (JSR_pushes inlineResolver (mkCpu 0 false false) (absolute 0x34 0x12)).2.2.2.2.2.2.2.2.2⟩

/-! ## The ACIA registers -/

/-- C13 fails as stated: after `Reset` the transmit buffer is empty, so the status register
reads `0x10` (bit 4, `txEmpty`), not `0x00`. -/
theorem Reset_status_not_zero :
    busyAcia.Reset.txEmpty = true ∧
    (busyAcia.Reset.ReadByte aciaStatus).2 = 0x10 ∧
    (busyAcia.Reset.ReadByte aciaStatus).2 ≠ 0x00 := by
  decide

/-- C13, amended. For every ACIA state, after `Reset` the device has `txEmpty = true`,
`rxFull = false` and `overrun = false`, and a CPU read of the status register (offset 3)
returns `0x10`, the `txEmpty` bit alone. -/
theorem Reset_status (a : Acia6551) :
    a.Reset.txEmpty = true ∧ a.Reset.rxFull = false ∧ a.Reset.overrun = false ∧
    (a.Reset.ReadByte aciaStatus).2 = 0x10 ∧ (a.Reset.ReadByte 3).2 = 0x10 := by
  have h : a.Reset = busyAcia.Reset := rfl
  rw [h]
  decide

/-- C14. ACIA status composition: for every combination of `rxFull`, `txEmpty` and
`overrun`, `ReadByte(aciaStatus)` returns exactly
`(0x04 if overrun) | (0x08 if rxFull) | (0x10 if txEmpty)`, with every other bit 0, and
reading it changes no device state. -/
theorem status_composition (a : Acia6551) :
    (a.ReadByte aciaStatus).2 =
      ((if a.overrun then 0x04 else 0) ||| (if a.rxFull then 0x08 else 0) |||
        (if a.txEmpty then 0x10 else 0)) ∧
    (a.ReadByte aciaStatus).2.testBit 2 = a.overrun ∧
    (a.ReadByte aciaStatus).2.testBit 3 = a.rxFull ∧
    (a.ReadByte aciaStatus).2.testBit 4 = a.txEmpty ∧
    (a.ReadByte aciaStatus).2 &&& 0xE3 = 0 ∧
    (a.ReadByte aciaStatus).2 < 256 ∧
    (a.ReadByte aciaStatus).1 = a := by
  have hread : a.ReadByte aciaStatus = (a, a.statusRegister) := by
    simp [Acia6551.ReadByte, aciaStatus, aciaData, aciaCommand, aciaControl]
  rw [hread]
  simp only [Acia6551.statusRegister]
  cases a.overrun <;> cases a.rxFull <;> cases a.txEmpty <;> decide

/-- C16. ACIA command register: for every byte `v`, after `WriteByte(aciaCommand, v)`
`rxIrqEnabled` equals bit 1 of `v` and `txIrqEnabled` equals bit 2 of `v`, whatever the
enables were before, and `ReadByte(aciaCommand)` returns exactly `v`, the raw byte. -/
theorem command_register (a : Acia6551) (v : Nat) :
    (a.WriteByte aciaCommand v).rxIrqEnabled = v.testBit 1 ∧
    (a.WriteByte aciaCommand v).txIrqEnabled = v.testBit 2 ∧
    ((a.WriteByte aciaCommand v).ReadByte aciaCommand).2 = v ∧
    ((a.WriteByte aciaCommand v).ReadByte aciaCommand).1 = a.WriteByte aciaCommand v := by
  have h2 : ((v &&& 0x02) != 0) = v.testBit 1 := and_two_pow_ne_zero v 1
  have h4 : ((v &&& 0x04) != 0) = v.testBit 2 := and_two_pow_ne_zero v 2
  simp [Acia6551.WriteByte, Acia6551.ReadByte, aciaCommand, aciaData, h2, h4]

theorem consume_fold (bs : List Nat) : ∀ (a : Acia6551) (h : bs ≠ []),
    (bs.foldl Acia6551.consume a).rx = bs.getLast h ∧
    (bs.foldl Acia6551.consume a).rxFull = true ∧
    (bs.foldl Acia6551.consume a).overrun
      = (a.overrun || a.rxFull || decide (2 ≤ bs.length)) := by
  induction bs with
  | nil => intro a h; exact absurd rfl h
  | cons b rest ih =>
    intro a _
    cases rest with
    | nil => simp [Acia6551.consume]
    | cons b' rest' =>
      have hne : b' :: rest' ≠ [] := by simp
      obtain ⟨h1, h2, h3⟩ := ih (a.consume b) hne
      refine ⟨?_, ?_, ?_⟩
      · rw [List.foldl_cons, h1, List.getLast_cons hne]
      · rw [List.foldl_cons, h2]
      · rw [List.foldl_cons, h3]
        simp [Acia6551.consume]

/-- C15. ACIA receive overrun: for every non-empty byte sequence written host-side with
`Write` on a freshly reset device, `Write` reports the full length, the data register
afterwards returns the last byte, `rxFull` is true, and `overrun` is true iff the sequence
has at least two bytes (it is set at the second byte and stays set); a CPU read of the data
register does not clear `rxFull`, so any later host write also sets `overrun`. -/
theorem Write_overrun (a : Acia6551) (bs : List Nat) (h : bs ≠ []) :
    (a.Reset.Write bs).2 = bs.length ∧
    ((a.Reset.Write bs).1.ReadByte aciaData).2 = bs.getLast h ∧
    (a.Reset.Write bs).1.rxFull = true ∧
    ((a.Reset.Write bs).1.overrun = true ↔ 2 ≤ bs.length) ∧
    (∀ n, 1 ≤ n → n ≤ bs.length →
      ((a.Reset.Write (bs.take n)).1.overrun = true ↔ 2 ≤ n)) ∧
    ((a.Reset.Write bs).1.ReadByte aciaData).1.rxFull = true ∧
    (∀ cs : List Nat, cs ≠ [] →
      (((a.Reset.Write bs).1.ReadByte aciaData).1.Write cs).1.overrun = true) := by
  have hread : ∀ s : Acia6551, s.ReadByte aciaData = (s, s.rx) := by
    intro s; simp [Acia6551.ReadByte]
  have hover : ∀ (l : List Nat), l ≠ [] →
      ((a.Reset.Write l).1.overrun = true ↔ 2 ≤ l.length) := by
    intro l hl
    obtain ⟨_, _, h3⟩ := consume_fold l a.Reset hl
    simp only [Acia6551.Write, h3]
    simp [Acia6551.Reset]
  obtain ⟨h1, h2, _⟩ := consume_fold bs a.Reset h
  refine ⟨rfl, ?_, h2, hover bs h, ?_, ?_, ?_⟩
  · rw [hread]; exact h1
  · intro n hn1 hn2
    have hlen : (bs.take n).length = n := by simp [List.length_take, hn2]
    have hne : bs.take n ≠ [] := by
      intro h0; rw [h0] at hlen; simp at hlen; omega
    have := hover (bs.take n) hne
    rwa [hlen] at this
  · rw [hread]; exact h2
  · intro cs hcs
    rw [hread]
    obtain ⟨_, _, h3⟩ := consume_fold cs (a.Reset.Write bs).1 hcs
    simp only [Acia6551.Write] at h3 ⊢
    rw [h3, h2]
    simp

/-- C15 on the sequence `0x42, 0x32, 0xAB`: the data register reads `0xAB` and `overrun` is
set. -/
theorem Write_overrun_witness :
    ([0x42, 0x32, 0xAB] : List Nat) ≠ [] ∧
    ((busyAcia.Reset.Write [0x42, 0x32, 0xAB]).1.ReadByte aciaData).2 = 0xAB ∧
    ((busyAcia.Reset.Write [0x42, 0x32, 0xAB]).1.overrun = true ↔ 2 ≤ 3) ∧
    (1 ≤ 1 ∧ 1 ≤ 3 → ((busyAcia.Reset.Write [0x42]).1.overrun = true ↔ 2 ≤ 1)) :=
  ⟨by decide,
    (Write_overrun busyAcia [0x42, 0x32, 0xAB] (by decide)).2.1,
    (Write_overrun busyAcia [0x42, 0x32, 0xAB] (by decide)).2.2.2.1,
    fun h => (Write_overrun busyAcia [0x42, 0x32, 0xAB] (by decide)).2.2.2.2.1 1 h.1 h.2⟩

/-! ## Decimal arithmetic on legal packed BCD -/

theorem and_0x0F_eq_mod (x : Nat) : x &&& 0x0F = x % 16 :=
  Nat.and_pow_two_sub_one_eq_mod x 4

theorem and_0xFF_eq_mod (x : Nat) : x &&& 0xFF = x % 256 :=
  Nat.and_pow_two_sub_one_eq_mod x 8

theorem shr4_eq (x : Nat) : x >>> 4 = x / 16 :=
  Nat.shiftRight_eq_div_pow x 4

theorem shl4_mod (x : Nat) : (x <<< 4) % 256 = 16 * (x % 16) := by
  rw [Nat.shiftLeft_eq]; omega

theorem and_0x10_ne_zero (x : Nat) : ((x &&& 0x10) != 0) = decide (x / 16 % 2 = 1) := by
  rw [show (0x10 : Nat) = 2 ^ 4 from rfl, and_two_pow_ne_zero, Nat.testBit_to_div_mod]

set_option maxRecDepth 100000 in
theorem high_nibble_mask : ∀ k < 16, (16 * k) &&& 0xF0 = 16 * k := by
  decide

set_option maxRecDepth 100000 in
theorem nibble_or : ∀ l < 16, ∀ k < 16, l ||| (16 * k) = l + 16 * k := by
  decide

/-- Packing a low and a high nibble with `|` is `low + 16 * high`. -/
theorem pack_nibbles (lo hi : Nat) :
    (lo % 16) ||| (((hi <<< 4) % 256) &&& 0xF0) = lo % 16 + 16 * (hi % 16) ∧
    (lo % 16) ||| ((hi <<< 4) % 256) = lo % 16 + 16 * (hi % 16) := by
  have hl : lo % 16 < 16 := Nat.mod_lt _ (by decide)
  have hh : hi % 16 < 16 := Nat.mod_lt _ (by decide)
  rw [shl4_mod, high_nibble_mask _ hh]
  exact ⟨nibble_or _ hl _ hh, nibble_or _ hl _ hh⟩

/-- The digit arithmetic of decimal addition: adjusting each nibble sum by 6 when it passes 9
yields the decimal digits of the sum, and the final nibble passes 15 exactly on a decimal
carry. -/
theorem bcd_add_arith (al ah bl bh k low cb high : Nat)
    (hal : al ≤ 9) (hah : ah ≤ 9) (hbl : bl ≤ 9) (hbh : bh ≤ 9) (hk : k ≤ 1)
    (hlow : low = if (al + bl + k) % 256 % 256 > 9 then ((al + bl + k) % 256 + 6) % 256
      else (al + bl + k) % 256)
    (hcb : cb = if low > 15 then 1 else 0)
    (hhigh : high = if (ah + bh + cb) % 256 % 256 > 9 then ((ah + bh + cb) % 256 + 6) % 256
      else (ah + bh + cb) % 256) :
    low % 16 + 16 * (high % 16) =
      16 * ((10 * ah + al + (10 * bh + bl) + k) % 100 / 10) +
        (10 * ah + al + (10 * bh + bl) + k) % 100 % 10 ∧
    (high > 15 ↔ 100 ≤ 10 * ah + al + (10 * bh + bl) + k) ∧
    (low % 16 + 16 * (high % 16) = 0 ↔ (10 * ah + al + (10 * bh + bl) + k) % 100 = 0) := by
  have e1 : (al + bl + k) % 256 = al + bl + k := by omega
  have e2 : (al + bl + k + 6) % 256 = al + bl + k + 6 := by omega
  have hcb1 : cb ≤ 1 := by rw [hcb]; split_ifs <;> omega
  have e3 : (ah + bh + cb) % 256 = ah + bh + cb := by omega
  have e4 : (ah + bh + cb + 6) % 256 = ah + bh + cb + 6 := by omega
  simp only [e1, e2, e3, e4] at hlow hhigh
  have hs : 10 * ah + al + (10 * bh + bl) + k = 10 * (ah + bh) + (al + bl + k) := by omega
  rw [hs]
  have hlo : al + bl + k ≤ 19 := by omega
  have hhi : ah + bh ≤ 18 := by omega
  generalize al + bl + k = lo at *
  generalize ah + bh = hi at *
  clear hal hah hbl hbh hk e1 e2 e3 e4 hs
  split_ifs at hlow hcb hhigh <;> subst hlow hcb hhigh <;> refine ⟨?_, ?_, ?_⟩ <;> omega

/-- Decimal `adcDecimal` on two legal packed-BCD bytes. -/
theorem adcDecimal_legal (c : Cpu) (a b k : Nat) (hal : a % 16 ≤ 9) (hah : a / 16 ≤ 9)
    (hbl : b % 16 ≤ 9) (hbh : b / 16 ≤ 9) (hk : k ≤ 1) :
    (c.adcDecimal a b k).A =
      16 * ((10 * (a / 16) + a % 16 + (10 * (b / 16) + b % 16) + k) % 100 / 10) +
        (10 * (a / 16) + a % 16 + (10 * (b / 16) + b % 16) + k) % 100 % 10 ∧
    ((c.adcDecimal a b k).C = true ↔
      100 ≤ 10 * (a / 16) + a % 16 + (10 * (b / 16) + b % 16) + k) ∧
    ((c.adcDecimal a b k).Z = true ↔
      (10 * (a / 16) + a % 16 + (10 * (b / 16) + b % 16) + k) % 100 = 0) := by
  simp only [Cpu.adcDecimal, Cpu.setCarry, Cpu.setZero, Cpu.setNegative, Cpu.setOverflow,
    (pack_nibbles _ _).1, and_0x0F_eq_mod, and_0xFF_eq_mod, shr4_eq, beq_iff_eq,
    decide_eq_true_eq]
  exact bcd_add_arith (a % 16) (a / 16) (b % 16) (b / 16) k _ _ _ hal hah hbl hbh hk
    rfl rfl rfl

/-- The digit arithmetic of decimal subtraction: a nibble difference that wraps below zero
has bit 4 set, is adjusted by 6 and borrows from the next digit. -/
theorem bcd_sub_arith (al ah bl bh k bw low0 low cb high0 high : Nat)
    (hal : al ≤ 9) (hah : ah ≤ 9) (hbl : bl ≤ 9) (hbh : bh ≤ 9) (hk : k ≤ 1)
    (hbw : bw = if k = 0 then 1 else 0)
    (hlow0 : low0 = sub8 (sub8 al bl) bw)
    (hlow : low = if low0 / 16 % 2 = 1 then sub8 low0 6 else low0)
    (hcb : cb = if low / 16 % 2 = 1 then 1 else 0)
    (hhigh0 : high0 = sub8 (sub8 ah bh) cb)
    (hhigh : high = if high0 / 16 % 2 = 1 then sub8 high0 6 else high0) :
    low % 16 + 16 * (high % 16) =
      16 * ((10 * ah + al + 100 - (10 * bh + bl) - (1 - k)) % 100 / 10) +
        (10 * ah + al + 100 - (10 * bh + bl) - (1 - k)) % 100 % 10 ∧
    (high % 256 < 15 ↔ 100 ≤ 10 * ah + al + 100 - (10 * bh + bl) - (1 - k)) ∧
    (low % 16 + 16 * (high % 16) = 0 ↔
      (10 * ah + al + 100 - (10 * bh + bl) - (1 - k)) % 100 = 0) := by
  have hbw1 : bw = 1 - k := by rw [hbw]; split_ifs <;> omega
  have h0 : low0 = (al + 256 - bl - bw) % 256 := by rw [hlow0]; unfold sub8; omega
  have hlowv : low = if al < bl + bw then al + 250 - bl - bw else al - bl - bw := by
    rw [hlow]; unfold sub8; split_ifs <;> omega
  have hcbv : cb = if al < bl + bw then 1 else 0 := by
    rw [hcb, hlowv]; split_ifs <;> omega
  have hcb1 : cb ≤ 1 := by rw [hcbv]; split_ifs <;> omega
  have h1 : high0 = (ah + 256 - bh - cb) % 256 := by rw [hhigh0]; unfold sub8; omega
  have hhighv : high = if ah < bh + cb then ah + 250 - bh - cb else ah - bh - cb := by
    rw [hhigh]; unfold sub8; split_ifs <;> omega
  clear hlow0 hlow hcb hhigh0 hhigh h0 h1 hbw
  subst hbw1
  rw [hlowv, hhighv, hcbv]
  clear hlowv hhighv hcbv
  split_ifs <;> refine ⟨?_, ?_, ?_⟩ <;> omega

/-- Decimal `sbcDecimal` on two legal packed-BCD bytes. -/
theorem sbcDecimal_legal (c : Cpu) (a b k : Nat) (hal : a % 16 ≤ 9) (hah : a / 16 ≤ 9)
    (hbl : b % 16 ≤ 9) (hbh : b / 16 ≤ 9) (hk : k ≤ 1) :
    (c.sbcDecimal a b k).A =
      16 * ((10 * (a / 16) + a % 16 + 100 - (10 * (b / 16) + b % 16) - (1 - k)) % 100 / 10) +
        (10 * (a / 16) + a % 16 + 100 - (10 * (b / 16) + b % 16) - (1 - k)) % 100 % 10 ∧
    ((c.sbcDecimal a b k).C = true ↔
      100 ≤ 10 * (a / 16) + a % 16 + 100 - (10 * (b / 16) + b % 16) - (1 - k)) ∧
    ((c.sbcDecimal a b k).Z = true ↔
      (10 * (a / 16) + a % 16 + 100 - (10 * (b / 16) + b % 16) - (1 - k)) % 100 = 0) := by
  simp only [Cpu.sbcDecimal, Cpu.setCarry, Cpu.setZero, Cpu.setNegative, Cpu.setOverflow,
    (pack_nibbles _ _).2, and_0x0F_eq_mod, and_0xFF_eq_mod, and_0x10_ne_zero, shr4_eq,
    beq_iff_eq, decide_eq_true_eq]
  exact bcd_sub_arith (a % 16) (a / 16) (b % 16) (b / 16) k _ _ _ _ _ _ hal hah hbl hbh hk
    rfl rfl rfl rfl rfl rfl

/-- C17. Decimal ADC is decimal addition on legal BCD: for `A` and operand whose nibbles are
each at most 9, encoding `x` and `y` in 0..99, and carry-in `c`, decimal-mode `ADC` leaves in
`A` the packed-BCD encoding (both nibbles at most 9) of `(x + y + c) mod 100`, sets C iff
`x + y + c >= 100`, and sets Z iff `(x + y + c) mod 100 = 0`. -/
theorem ADC_decimal_legal (R : Resolver) (c : Cpu) (instr : Instruction) (hD : c.D = true)
    (hal : c.A % 16 ≤ 9) (hah : c.A / 16 ≤ 9)
    (hbl : R.resolveOperand c instr % 16 ≤ 9) (hbh : R.resolveOperand c instr / 16 ≤ 9) :
    (ADC R c instr).A % 16 ≤ 9 ∧ (ADC R c instr).A / 16 ≤ 9 ∧
    10 * ((ADC R c instr).A / 16) + (ADC R c instr).A % 16 =
      (10 * (c.A / 16) + c.A % 16 +
        (10 * (R.resolveOperand c instr / 16) + R.resolveOperand c instr % 16) +
        (if c.C then 1 else 0)) % 100 ∧
    ((ADC R c instr).C = true ↔
      10 * (c.A / 16) + c.A % 16 +
        (10 * (R.resolveOperand c instr / 16) + R.resolveOperand c instr % 16) +
        (if c.C then 1 else 0) ≥ 100) ∧
    ((ADC R c instr).Z = true ↔
      (10 * (c.A / 16) + c.A % 16 +
        (10 * (R.resolveOperand c instr / 16) + R.resolveOperand c instr % 16) +
        (if c.C then 1 else 0)) % 100 = 0) := by
  have hk := getCarryInt_le c
  have hci : (if c.C then 1 else 0) = c.getCarryInt := rfl
  have hADC : ADC R c instr = c.adcDecimal c.A (R.resolveOperand c instr) c.getCarryInt := by
    simp only [ADC, Cpu.getDecimal, hD, if_true]
  obtain ⟨hA, hC, hZ⟩ := adcDecimal_legal c c.A (R.resolveOperand c instr) c.getCarryInt
    hal hah hbl hbh hk
  rw [hADC, hci]
  refine ⟨?_, ?_, ?_, hC, hZ⟩ <;> rw [hA] <;> omega

/-- C17 at `A = 0x58`, operand `0x46`, carry set: `58 + 46 + 1 = 105`, so `A = 0x05` with
carry. -/
theorem ADC_decimal_legal_witness :
    (mkCpu 0x58 true true).D = true ∧
    (mkCpu 0x58 true true).A % 16 ≤ 9 ∧ (mkCpu 0x58 true true).A / 16 ≤ 9 ∧
    inlineResolver.resolveOperand (mkCpu 0x58 true true) (imm 0x46) % 16 ≤ 9 ∧
    inlineResolver.resolveOperand (mkCpu 0x58 true true) (imm 0x46) / 16 ≤ 9 ∧
    (ADC inlineResolver (mkCpu 0x58 true true) (imm 0x46)).A = 0x05 ∧
    10 * ((ADC inlineResolver (mkCpu 0x58 true true) (imm 0x46)).A / 16)
      + (ADC inlineResolver (mkCpu 0x58 true true) (imm 0x46)).A % 16 = (58 + 46 + 1) % 100 ∧
    ((ADC inlineResolver (mkCpu 0x58 true true) (imm 0x46)).C = true ↔ 58 + 46 + 1 ≥ 100) :=
  ⟨rfl, by decide, by decide, by decide, by decide, by decide,
    (ADC_decimal_legal inlineResolver (mkCpu 0x58 true true) (imm 0x46) rfl (by decide)
      (by decide) (by decide) (by decide)).2.2.1,
    (ADC_decimal_legal inlineResolver (mkCpu 0x58 true true) (imm 0x46) rfl (by decide)
      (by decide) (by decide) (by decide)).2.2.2.1⟩

/-- C18. Decimal SBC is decimal subtraction on legal BCD: for `A` and operand whose nibbles
are each at most 9, encoding `x` and `y` in 0..99, and carry-in `c`, decimal-mode `SBC`
leaves in `A` the packed-BCD encoding (both nibbles at most 9) of
`(x - y - (1 - c)) mod 100`, sets C iff `x - y - (1 - c) >= 0`, and sets Z iff that result is
0. -/
theorem SBC_decimal_legal (R : Resolver) (c : Cpu) (instr : Instruction) (hD : c.D = true)
    (hal : c.A % 16 ≤ 9) (hah : c.A / 16 ≤ 9)
    (hbl : R.resolveOperand c instr % 16 ≤ 9) (hbh : R.resolveOperand c instr / 16 ≤ 9) :
    (SBC R c instr).A % 16 ≤ 9 ∧ (SBC R c instr).A / 16 ≤ 9 ∧
    ((10 * ((SBC R c instr).A / 16) + (SBC R c instr).A % 16 : Nat) : Int) =
      ((10 * (c.A / 16) + c.A % 16 : Nat) -
        ((10 * (R.resolveOperand c instr / 16) + R.resolveOperand c instr % 16 : Nat) : Int) -
        (1 - (if c.C then 1 else 0))) % 100 ∧
    ((SBC R c instr).C = true ↔
      ((10 * (c.A / 16) + c.A % 16 : Nat) : Int) -
        ((10 * (R.resolveOperand c instr / 16) + R.resolveOperand c instr % 16 : Nat) : Int) -
        (1 - (if c.C then 1 else 0)) ≥ 0) ∧
    ((SBC R c instr).Z = true ↔
      (((10 * (c.A / 16) + c.A % 16 : Nat) : Int) -
        ((10 * (R.resolveOperand c instr / 16) + R.resolveOperand c instr % 16 : Nat) : Int) -
        (1 - (if c.C then 1 else 0))) % 100 = 0) := by
  have hSBC : SBC R c instr = c.sbcDecimal c.A (R.resolveOperand c instr) c.getCarryInt := by
    simp only [SBC, Cpu.getDecimal, hD, if_true]
  obtain ⟨hA, hC, hZ⟩ := sbcDecimal_legal c c.A (R.resolveOperand c instr) c.getCarryInt
    hal hah hbl hbh (getCarryInt_le c)
  rw [hSBC, hC, hZ, hA]
  simp only [Cpu.getCarryInt]
  generalize R.resolveOperand c instr = b at *
  cases c.C <;> simp <;> refine ⟨?_, ?_, ?_, ?_, ?_⟩ <;> omega

/-- C18 at `A = 0x12`, operand `0x34`, carry clear: `12 - 34 - 1 = -23`, so `A = 0x77` with
carry clear (borrow). -/
theorem SBC_decimal_legal_witness :
    (mkCpu 0x12 false true).D = true ∧
    (mkCpu 0x12 false true).A % 16 ≤ 9 ∧ (mkCpu 0x12 false true).A / 16 ≤ 9 ∧
    inlineResolver.resolveOperand (mkCpu 0x12 false true) (imm 0x34) % 16 ≤ 9 ∧
    inlineResolver.resolveOperand (mkCpu 0x12 false true) (imm 0x34) / 16 ≤ 9 ∧
    (SBC inlineResolver (mkCpu 0x12 false true) (imm 0x34)).A = 0x77 ∧
    ((SBC inlineResolver (mkCpu 0x12 false true) (imm 0x34)).C = true ↔
      ((12 : Nat) : Int) - ((34 : Nat) : Int) - (1 - 0) ≥ 0) :=
  ⟨rfl, by decide, by decide, by decide, by decide, by decide,
    (SBC_decimal_legal inlineResolver (mkCpu 0x12 false true) (imm 0x34) rfl (by decide)
      (by decide) (by decide) (by decide)).2.2.2.1⟩

/-! ## Signed overflow -/

theorem testBit7_of_lt (x : Nat) (h : x < 256) : x.testBit 7 = decide (128 ≤ x) := by
  rw [Nat.testBit_to_div_mod]
  congr 1
  simp only [eq_iff_iff]
  omega

/-- The overflow expression of `adcNormal` is signed overflow of the 8-bit addition. -/
theorem overflow_arith (a b k : Nat) (ha : a < 256) (hb : b < 256) (hk : k ≤ 1) :
    (((a ^^^ ((a + b + k) % 65536 % 256)) &&& (b ^^^ ((a + b + k) % 65536 % 256)) &&& 0x80)
        != 0) = true ↔
      ((if a < 128 then (a : Int) else (a : Int) - 256) +
          (if b < 128 then (b : Int) else (b : Int) - 256) + (k : Int) < -128 ∨
        (if a < 128 then (a : Int) else (a : Int) - 256) +
          (if b < 128 then (b : Int) else (b : Int) - 256) + (k : Int) > 127) := by
  have hr : (a + b + k) % 65536 % 256 < 256 := by omega
  rw [and_0x80_ne_zero, Nat.testBit_and, Nat.testBit_xor, Nat.testBit_xor,
    testBit7_of_lt a ha, testBit7_of_lt b hb, testBit7_of_lt _ hr]
  by_cases h1 : 128 ≤ a <;> by_cases h2 : 128 ≤ b <;>
    by_cases h3 : 128 ≤ (a + b + k) % 65536 % 256 <;>
    simp [h1, h2, h3] <;> split_ifs <;> omega

theorem adcNormal_V (c : Cpu) (a b k : Nat) :
    (c.adcNormal a b k).V =
      (((a ^^^ ((a + b + k) % 65536 % 256)) &&& (b ^^^ ((a + b + k) % 65536 % 256)) &&& 0x80)
        != 0) := rfl

/-- C19. The binary overflow flag is signed overflow: reading the 8-bit `A` and operand as
two's-complement integers `sa`, `sb` in -128..127, binary `ADC` sets V iff `sa + sb + c` lies
outside -128..127, and binary `SBC` sets V iff `sa - sb - (1 - c)` lies outside -128..127. -/
theorem V_signed_overflow (R : Resolver) (c : Cpu) (instr : Instruction)
    (hD : c.D = false) (hA : c.A < 256) (hop : R.resolveOperand c instr < 256) :
    ((ADC R c instr).V = true ↔
      ((if c.A < 128 then (c.A : Int) else (c.A : Int) - 256) +
          (if R.resolveOperand c instr < 128 then (R.resolveOperand c instr : Int)
            else (R.resolveOperand c instr : Int) - 256) +
          (if c.C then 1 else 0) < -128 ∨
        (if c.A < 128 then (c.A : Int) else (c.A : Int) - 256) +
          (if R.resolveOperand c instr < 128 then (R.resolveOperand c instr : Int)
            else (R.resolveOperand c instr : Int) - 256) +
          (if c.C then 1 else 0) > 127)) ∧
    ((SBC R c instr).V = true ↔
      ((if c.A < 128 then (c.A : Int) else (c.A : Int) - 256) -
          (if R.resolveOperand c instr < 128 then (R.resolveOperand c instr : Int)
            else (R.resolveOperand c instr : Int) - 256) -
          (1 - (if c.C then 1 else 0)) < -128 ∨
        (if c.A < 128 then (c.A : Int) else (c.A : Int) - 256) -
          (if R.resolveOperand c instr < 128 then (R.resolveOperand c instr : Int)
            else (R.resolveOperand c instr : Int) - 256) -
          (1 - (if c.C then 1 else 0)) > 127)) := by
  have hk := getCarryInt_le c
  have hn := not8_eq_sub _ hop
  have hADC : ADC R c instr = c.adcNormal c.A (R.resolveOperand c instr) c.getCarryInt := by
    simp only [ADC, Cpu.getDecimal, hD, Bool.false_eq_true, if_false]
  have hSBC : SBC R c instr =
      c.adcNormal c.A (255 - R.resolveOperand c instr) c.getCarryInt := by
    simp only [SBC, Cpu.getDecimal, hD, Bool.false_eq_true, if_false, hn]
  have h1 := overflow_arith c.A (R.resolveOperand c instr) c.getCarryInt hA hop hk
  have h2 := overflow_arith c.A (255 - R.resolveOperand c instr) c.getCarryInt hA
    (by omega) hk
  rw [hADC, hSBC, adcNormal_V, adcNormal_V, h1, h2]
  simp only [Cpu.getCarryInt]
  generalize R.resolveOperand c instr = b at *
  constructor
  · cases c.C <;> simp
  · cases c.C <;> simp <;> split_ifs <;> omega

/-- C19 at `A = 0x7F`, operand `0x01`, carry clear: `127 + 1` overflows and `ADC` sets V;
`127 - 1 - 1` does not and `SBC` leaves V clear. -/
theorem V_signed_overflow_witness :
    (mkCpu 0x7F false false).D = false ∧ (mkCpu 0x7F false false).A < 256 ∧
    inlineResolver.resolveOperand (mkCpu 0x7F false false) (imm 0x01) < 256 ∧
    (ADC inlineResolver (mkCpu 0x7F false false) (imm 0x01)).V = true ∧
    (SBC inlineResolver (mkCpu 0x7F false false) (imm 0x01)).V = false ∧
    ((ADC inlineResolver (mkCpu 0x7F false false) (imm 0x01)).V = true ↔
      ((127 : Int) + 1 + 0 < -128 ∨ (127 : Int) + 1 + 0 > 127)) :=
  ⟨rfl, by decide, by decide, by decide, by decide,
    (V_signed_overflow inlineResolver (mkCpu 0x7F false false) (imm 0x01) rfl (by decide)
      (by decide)).1⟩

/-! ## Rotations through carry -/

set_option maxRecDepth 100000 in
/-- On a byte and a carry bit, rotating left and then right through the carry returns both,
and so does rotating right and then left. -/
theorem rotate_byte : ∀ a < 256, ∀ k < 2,
    (((((a <<< 1) % 256) ||| k) >>> 1) |||
        (((if ((a &&& 0x80) != 0) = true then 1 else 0) <<< 7) % 256) = a ∧
      ((((((a <<< 1) % 256) ||| k) &&& 0x01) == 1) = decide (k = 1))) ∧
    ((((((a >>> 1) ||| ((k <<< 7) % 256)) <<< 1) % 256) |||
        (if ((a &&& 0x01) == 1) = true then 1 else 0) = a) ∧
      ((((a >>> 1) ||| ((k <<< 7) % 256)) &&& 0x80) != 0) = decide (k = 1)) := by
  decide

/-- C20. ROL and ROR are mutually inverse 9-bit rotations: for every 8-bit `A` and every
carry value, in accumulator addressing, `ROL` followed by `ROR` restores both `A` and the
carry flag, and so does `ROR` followed by `ROL`. -/
theorem ROL_ROR_inverse (R : Resolver) (c : Cpu) (instr : Instruction)
    (hacc : instr.addressingId = .accumulator) (hA : c.A < 256) :
    ((ROR R (ROL R c instr) instr).A = c.A ∧ (ROR R (ROL R c instr) instr).C = c.C) ∧
    ((ROL R (ROR R c instr) instr).A = c.A ∧ (ROL R (ROR R c instr) instr).C = c.C) := by
  obtain ⟨mode, bytes⟩ := instr
  cases hacc
  have h0 := rotate_byte c.A hA 0 (by decide)
  have h1 := rotate_byte c.A hA 1 (by decide)
  simp only [ROL, ROR, Cpu.setCarry, Cpu.setArithmeticFlags, Cpu.setZero, Cpu.setNegative,
    Cpu.getCarryInt]
  cases hC : c.C
  · simpa using h0
  · simpa using h1

/-- C20 at `A = 0x81` with carry clear: `ROL` gives `0x02` with carry set, and `ROR` brings
back `0x81` with carry clear. -/
theorem ROL_ROR_inverse_witness :
    acc.addressingId = .accumulator ∧ (mkCpu 0x81 false false).A < 256 ∧
    (ROL inlineResolver (mkCpu 0x81 false false) acc).A = 0x02 ∧
    (ROL inlineResolver (mkCpu 0x81 false false) acc).C = true ∧
    ((ROR inlineResolver (ROL inlineResolver (mkCpu 0x81 false false) acc) acc).A
        = (mkCpu 0x81 false false).A ∧
      (ROR inlineResolver (ROL inlineResolver (mkCpu 0x81 false false) acc) acc).C
        = (mkCpu 0x81 false false).C) :=
  ⟨rfl, by decide, by decide, by decide,
    (ROL_ROR_inverse inlineResolver (mkCpu 0x81 false false) acc rfl (by decide)).1⟩

end I6502
